import Mathlib

/-!
Verification of the SCORM-merge package engine (server/scormProcessor.js,
server/descriptionTaskManager.js, server/openaiService.js, server/index.js).
Strings are modelled as `List Char`; JavaScript string methods used by the
source (includes, replace, replaceAll via /g regexes, trim, toLowerCase,
endsWith) are given executable shallow embeddings below.
-/

set_option autoImplicit false

abbrev Str := List Char

/-- Character list of a string literal. -/
def strOf (s : String) : Str := s.data

/-- JS truthiness of a string value: non-empty. -/
def truthyStr (s : Str) : Bool := !s.isEmpty

/-- JS truthiness of a possibly-undefined string value. -/
def truthyOpt (s : Option Str) : Bool :=
  match s with
  | none => false
  | some l => !l.isEmpty

/-- JS `String.prototype.includes(pat)`. -/
def occurs (pat : Str) : Str → Bool
  | [] => pat.isPrefixOf []
  | c :: t => pat.isPrefixOf (c :: t) || occurs pat t

/-- Index of the first occurrence of `pat` (JS `indexOf`), `none` if absent. -/
def occIdx (pat : Str) : Str → Option Nat
  | [] => if pat.isPrefixOf [] then some 0 else none
  | c :: t =>
    if pat.isPrefixOf (c :: t) then some 0
    else (occIdx pat t).map (· + 1)

/-- JS `String.prototype.replace(pat, repl)` with a plain-string pattern:
replaces only the first occurrence. -/
def replaceFirst (pat repl : Str) : Str → Str
  | [] => if pat.isPrefixOf [] then repl else []
  | c :: t =>
    if pat.isPrefixOf (c :: t) then repl ++ (c :: t).drop pat.length
    else c :: replaceFirst pat repl t

/-- JS `replace(/c/g, repl)` for a single-character pattern. -/
def jsReplaceAll (c : Char) (repl : Str) (s : Str) : Str :=
  s.flatMap (fun x => if x = c then repl else [x])

/-- JS whitespace test (the characters that occur in this code base). -/
def isJsSpace (c : Char) : Bool :=
  c = ' ' || c = '\t' || c = '\n' || c = '\r'

/-- JS `String.prototype.trim`. -/
def jsTrim (s : Str) : Str :=
  ((s.dropWhile isJsSpace).reverse.dropWhile isJsSpace).reverse

/-- ASCII lowercasing, charwise (JS `toLowerCase` on the ASCII names used here). -/
def toLowerChar (c : Char) : Char :=
  if 'A' ≤ c ∧ c ≤ 'Z' then Char.ofNat (c.toNat + 32) else c

/-- JS `String.prototype.toLowerCase` restricted to ASCII. -/
def toLowerAscii (s : Str) : Str := s.map toLowerChar

/-- ASCII uppercasing of a single character (JS `toUpperCase` on one char). -/
def toUpperChar (c : Char) : Char :=
  if 'a' ≤ c ∧ c ≤ 'z' then Char.ofNat (c.toNat - 32) else c

/-- Decimal digit character for `n < 10`. -/
def digitChar : Nat → Char
  | 0 => '0' | 1 => '1' | 2 => '2' | 3 => '3' | 4 => '4'
  | 5 => '5' | 6 => '6' | 7 => '7' | 8 => '8' | _ => '9'

/-- Numeric value of a decimal digit character. -/
def digitVal (c : Char) : Nat :=
  if c = '0' then 0 else if c = '1' then 1 else if c = '2' then 2
  else if c = '3' then 3 else if c = '4' then 4 else if c = '5' then 5
  else if c = '6' then 6 else if c = '7' then 7 else if c = '8' then 8 else 9

/-- Decimal rendering of a natural number (JS number-to-string for the
non-negative integers interpolated by the source templates). -/
def natToStr (n : Nat) : Str :=
  if _h : n < 10 then [digitChar n]
  else natToStr (n / 10) ++ [digitChar (n % 10)]
decreasing_by exact Nat.div_lt_self (by omega) (by omega)

/-- Decimal parse, left fold; inverse of `natToStr`. -/
def strToNat (s : Str) : Nat :=
  s.foldl (fun acc c => acc * 10 + digitVal c) 0

/-- Is a decimal digit character. -/
def isDigitChar (c : Char) : Bool :=
  '0' ≤ c && c ≤ '9'

/-- The five XML special characters and their entities, charwise
(`scormProcessor.js escapeXml`, one character's image). -/
def escapeXmlChar (c : Char) : Str :=
  if c = '&' then strOf "&amp;"
  else if c = '<' then strOf "&lt;"
  else if c = '>' then strOf "&gt;"
  else if c = '"' then strOf "&quot;"
  else if c = '\'' then strOf "&#39;"
  else [c]

/-- `ScormProcessor.escapeXml`: five sequential global replacements, `&` first. -/
def escapeXml (s : Str) : Str :=
  jsReplaceAll '\'' (strOf "&#39;")
    (jsReplaceAll '"' (strOf "&quot;")
      (jsReplaceAll '>' (strOf "&gt;")
        (jsReplaceAll '<' (strOf "&lt;")
          (jsReplaceAll '&' (strOf "&amp;") s))))

/-- Modelled from the spec: a standard XML unescape for the five entities of
`escapeXml` (the source defines no unescape; the spec round-trip property is
stated against this standard inverse). -/
def unescapeXml : Str → Str
  | [] => []
  | c :: rest =>
    if c = '&' then
      if (strOf "amp;").isPrefixOf rest then '&' :: unescapeXml (rest.drop 4)
      else if (strOf "lt;").isPrefixOf rest then '<' :: unescapeXml (rest.drop 3)
      else if (strOf "gt;").isPrefixOf rest then '>' :: unescapeXml (rest.drop 3)
      else if (strOf "quot;").isPrefixOf rest then '"' :: unescapeXml (rest.drop 5)
      else if (strOf "#39;").isPrefixOf rest then '\'' :: unescapeXml (rest.drop 4)
      else c :: unescapeXml rest
    else c :: unescapeXml rest
termination_by s => s.length
decreasing_by all_goals (simp only [List.length_drop, List.length_cons]; omega)

/-- The alphabet of the spec round-trip property: the five XML special
characters plus ASCII letters and digits. -/
def xmlSafeChar (c : Char) : Bool :=
  c = '&' || c = '<' || c = '>' || c = '"' || c = '\'' ||
  ('0' ≤ c && c ≤ '9') || ('A' ≤ c && c ≤ 'Z') || ('a' ≤ c && c ≤ 'z')

/-- ASCII lowercase letter. -/
def isLowerAZ (c : Char) : Bool := 'a' ≤ c && c ≤ 'z'

/-- ASCII uppercase letter. -/
def isUpperAZ (c : Char) : Bool := 'A' ≤ c && c ≤ 'Z'

/-- ASCII letter. -/
def isAlphaAscii (c : Char) : Bool := isLowerAZ c || isUpperAZ c

/-- JS regex word character `\w`: `[A-Za-z0-9_]`. -/
def isWordChar (c : Char) : Bool := isAlphaAscii c || isDigitChar c || c = '_'

/-- `generateFriendlyNameFromFilename` pass 1: JS `replace(/\.[^/.]+$/, '')` —
strip a final extension (a dot followed by one or more non-dot non-slash
characters reaching the end). -/
def removeExtension (s : Str) : Str :=
  match s.reverse.dropWhile (fun c => !(c == '.' || c == '/')) with
  | '.' :: front =>
    if (s.reverse.takeWhile (fun c => !(c == '.' || c == '/'))).isEmpty then s
    else front.reverse
  | _ => s

/-- A left-to-right non-overlapping scan inserting a space between each
adjacent pair satisfying `p` (JS `replace(/(X)(Y)/g, '$1 $2')`): after a
match the scan resumes past both characters. -/
def insertSpacePairs (p : Char → Char → Bool) : Str → Str
  | a :: b :: rest =>
    if p a b then a :: ' ' :: b :: insertSpacePairs p rest
    else a :: insertSpacePairs p (b :: rest)
  | l => l

/-- `generateFriendlyNameFromFilename` pass: JS `replace(/\s+/g, ' ')` — each
run of whitespace becomes one space. The Boolean argument records whether
the previous character was whitespace (i.e. the run already emitted its
space). -/
def collapseSpacesAux : Bool → Str → Str
  | _, [] => []
  | inRun, c :: rest =>
    if isJsSpace c then
      (if inRun then [] else [' ']) ++ collapseSpacesAux true rest
    else c :: collapseSpacesAux false rest

/-- JS `replace(/\s+/g, ' ')`. -/
def collapseSpaces (s : Str) : Str := collapseSpacesAux false s

/-- `generateFriendlyNameFromFilename` pass: JS `replace(/\b\w/g, upper)` —
uppercase each word character not preceded by a word character. The Boolean
argument records whether the previous character was a word character. -/
def capitalizeWordsAux : Bool → Str → Str
  | _, [] => []
  | prevW, c :: rest =>
    (if isWordChar c && !prevW then toUpperChar c else c) ::
      capitalizeWordsAux (isWordChar c) rest

/-- `ScormProcessor.generateFriendlyNameFromFilename`: extension strip,
separators to spaces, camel/letter-digit boundary spacing, whitespace
collapse and trim, per-word capitalization, `'Untitled Course'` default. -/
def generateFriendlyNameFromFilename (filename : Str) : Str :=
  let n1 := removeExtension filename
  let n2 := n1.map (fun c => if c = '-' ∨ c = '_' then ' ' else c)
  let n3 := insertSpacePairs (fun a b => (isLowerAZ a || isDigitChar a) && isUpperAZ b) n2
  let n4 := insertSpacePairs (fun a b => isAlphaAscii a && isDigitChar b) n3
  let n5 := insertSpacePairs (fun a b => isDigitChar a && isAlphaAscii b) n4
  let n6 := jsTrim (collapseSpaces n5)
  let n7 := capitalizeWordsAux false n6
  if n7.isEmpty then strOf "Untitled Course" else n7

/-- A `<resource>` record extracted from a package manifest
(`ScormProcessor.extractResources`): identifier, type, optional primary
`href`, and the resource's file paths. -/
structure Resource where
  identifier : Str
  type : Str
  href : Option Str
  files : List Str
deriving DecidableEq

/-- One entry of a package's backing zip archive (`zipContents.files`):
full path, directory flag, byte content. -/
structure ZipEntry where
  filename : Str
  dir : Bool
  content : Str
deriving DecidableEq

/-- A parsed package record as the merge engine consumes it
(`validateAndParsePackage` output plus the upload layer's `filename`). The
backing archive's entries stand in for the bytes read from `pkg.path`. -/
structure Package where
  title : Str
  description : Str
  version : Str
  filename : Option Str
  contentSample : Str
  resources : List Resource
  entries : List ZipEntry
deriving DecidableEq

/-- `ScormProcessor.getDisplayTitle`: the stored title when truthy and not a
sentinel, else a friendly name from the filename when present, else the
title or `'Untitled Course'`. -/
def getDisplayTitle (pkg : Package) : Str :=
  if pkg.title ≠ [] ∧ pkg.title ≠ strOf "Untitled" ∧
      pkg.title ≠ strOf "Untitled SCORM Package" then
    pkg.title
  else if truthyOpt pkg.filename = true then
    generateFriendlyNameFromFilename (pkg.filename.getD [])
  else if pkg.title ≠ [] then pkg.title
  else strOf "Untitled Course"

/-- The upload handler's package construction (server/index.js POST
/api/upload): spread the parsed metadata, attach the original filename, then
store the computed display title into the record's `title` field. -/
def uploadPackageData (parsed : Package) (origName : Str) : Package :=
  let pd := { parsed with filename := some origName }
  { pd with title := getDisplayTitle pd }

/-- The constant script text of `ScormProcessor.createFinishHandlerScript`. -/
def finishHandlerScript : Str := strOf
  "
<!-- SCORM Merge Finish Handler -->
<script>
(function() \x7b
    'use strict';
    
    // Global function to return to main menu
    function returnToMenu() \x7b
        try \x7b
            // Try to complete SCORM if available
            if (window.API && window.API.LMSSetValue) \x7b
                window.API.LMSSetValue(\"cmi.core.lesson_status\", \"completed\");
                window.API.LMSCommit(\"\");
                window.API.LMSFinish(\"\");
            \x7d
        \x7d catch (e) \x7b
            console.log('SCORM completion attempted:', e.message);
        \x7d
        
        // Navigate back to menu
        const menuPath = sessionStorage.getItem('menuPath');
        if (menuPath) \x7b
            window.location.href = menuPath;
        \x7d else \x7b
            // Fallback navigation
            window.location.href = '../menu/index.html';
        \x7d
    \x7d
    
    // Make function globally available
    window.returnToMenu = returnToMenu;
    window.parent.returnToMenu = returnToMenu;
    
    // Intercept common finish patterns when page loads
    document.addEventListener('DOMContentLoaded', function() \x7b
        // Look for common finish elements and add our handler
        const finishSelectors = [
            'a[href*=\"close\"]', 'a[href*=\"exit\"]', 'a[href*=\"finish\"]',
            'button[onclick*=\"close\"]', 'button[onclick*=\"exit\"]', 'button[onclick*=\"finish\"]',
            'input[value*=\"Finish\"]', 'input[value*=\"Exit\"]', 'input[value*=\"Close\"]',
            '.finish', '.exit', '.close', '\x23finish', '\x23exit', '\x23close',
            '[id*=\"finish\"]', '[id*=\"exit\"]', '[id*=\"close\"]'
        ];
        
        finishSelectors.forEach(selector => \x7b
            try \x7b
                const elements = document.querySelectorAll(selector);
                elements.forEach(element => \x7b
                    // Check if element text suggests it's a finish action
                    const text = element.textContent || element.value || element.title || '';
                    if (/\\b(finish|exit|close|done|complete)\\b/i.test(text)) \x7b
                        // Override the click handler
                        element.addEventListener('click', function(e) \x7b
                            e.preventDefault();
                            e.stopPropagation();
                            returnToMenu();
                        \x7d, true); // Use capture phase
                        
                        // Also override href if it's a link
                        if (element.tagName.toLowerCase() === 'a') \x7b
                            element.href = 'javascript:returnToMenu();';
                        \x7d
                    \x7d
                \x7d);
            \x7d catch (e) \x7b
                // Ignore selector errors
            \x7d
        \x7d);
        
        // Also intercept window.close() calls
        const originalClose = window.close;
        window.close = function() \x7b
            returnToMenu();
        \x7d;
        
        // Intercept common SCORM finish patterns
        if (window.API) \x7b
            const originalFinish = window.API.LMSFinish;
            if (originalFinish) \x7b
                window.API.LMSFinish = function(param) \x7b
                    const result = originalFinish.call(this, param);
                    setTimeout(returnToMenu, 500); // Delay to allow SCORM to complete
                    return result;
                \x7d;
            \x7d
        \x7d
    \x7d);
\x7d)();
</script>
"

/-- menu/index.html text before the per-package blocks (`createMenuFiles`). -/
def menuHtmlPre : Str := strOf
  "<!DOCTYPE html>
<html lang=\"en\">
<head>
    <meta charset=\"UTF-8\">
    <meta name=\"viewport\" content=\"width=device-width, initial-scale=1.0\">
    <title>Course Menu</title>
    <link rel=\"stylesheet\" href=\"style.css\">
</head>
<body>
    <div class=\"menu-container\">
        <h1>Course Menu</h1>
        <p>Select a course module to begin:</p>
        <div class=\"menu-list\">
            "

/-- menu/index.html text after the per-package blocks (`createMenuFiles`). -/
def menuHtmlPost : Str := strOf
  "
        </div>
    </div>
    <script src=\"menu.js\"></script>
</body>
</html>"

/-- menu/menu.js text before the stringified package data (`createMenuFiles`). -/
def menuJsPre : Str := strOf
  "
// SCORM API detection and initialization
let scormAPI = null;

function findAPI(win) \x7b
    let findAPITries = 0;
    while ((win.API == null) && (win.parent != null) && (win.parent != win)) \x7b
        findAPITries++;
        if (findAPITries > 7) \x7b
            return null;
        \x7d
        win = win.parent;
    \x7d
    return win.API;
\x7d

function initializeSCORM() \x7b
    scormAPI = findAPI(window);
    if (scormAPI) \x7b
        scormAPI.LMSInitialize(\"\");
        scormAPI.LMSSetValue(\"cmi.core.lesson_status\", \"incomplete\");
        scormAPI.LMSCommit(\"\");
    \x7d
\x7d

function finishSCORM() \x7b
    if (scormAPI) \x7b
        scormAPI.LMSSetValue(\"cmi.core.lesson_status\", \"completed\");
        scormAPI.LMSCommit(\"\");
        scormAPI.LMSFinish(\"\");
    \x7d
\x7d

function launchPackage(packageNum) \x7b
    const packageFolder = 'package_' + packageNum;
    const packageData = "

/-- menu/menu.js text after the stringified package data (`createMenuFiles`). -/
def menuJsPost : Str := strOf
  ";
    
    const pkg = packageData[packageNum - 1];
    if (pkg) \x7b
        // Set lesson status to completed since user is progressing
        if (scormAPI) \x7b
            scormAPI.LMSSetValue(\"cmi.core.lesson_status\", \"completed\");
            scormAPI.LMSCommit(\"\");
        \x7d
        
        // Store current package info in sessionStorage for finish handling
        sessionStorage.setItem('currentPackage', packageNum.toString());
        sessionStorage.setItem('menuPath', window.location.pathname);
        
        // Open the selected package in the same window
        window.location.href = '../' + packageFolder + '/' + pkg.mainFile;
    \x7d
\x7d

// Global function to return to main menu (can be called by individual packages)
function returnToMenu() \x7b
    const menuPath = sessionStorage.getItem('menuPath');
    if (menuPath) \x7b
        // Complete the current package in SCORM
        if (scormAPI) \x7b
            scormAPI.LMSSetValue(\"cmi.core.lesson_status\", \"completed\");
            scormAPI.LMSCommit(\"\");
        \x7d
        window.location.href = menuPath;
    \x7d else \x7b
        // Fallback: navigate relative to current location
        window.location.href = '../menu/index.html';
    \x7d
\x7d

// Make returnToMenu globally accessible
window.returnToMenu = returnToMenu;
window.parent.returnToMenu = returnToMenu;

// Initialize SCORM when page loads
document.addEventListener('DOMContentLoaded', function() \x7b
    initializeSCORM();
\x7d);

// Handle page unload
window.addEventListener('beforeunload', function() \x7b
    finishSCORM();
\x7d);
"

/-- The constant menu/style.css text (`createMenuFiles`). -/
def menuCssStr : Str := strOf
  "
body \x7b
    font-family: -apple-system, BlinkMacSystemFont, 'Segoe UI', 'Roboto', 'Oxygen', 'Ubuntu', 'Cantarell', 'Fira Sans', 'Droid Sans', 'Helvetica Neue', sans-serif;
    margin: 0;
    padding: 20px;
    background: linear-gradient(135deg, #667eea 0%, #764ba2 100%);
    min-height: 100vh;
    color: #333;
\x7d

.menu-container \x7b
    max-width: 800px;
    margin: 0 auto;
    background: white;
    border-radius: 12px;
    padding: 2rem;
    box-shadow: 0 10px 30px rgba(0, 0, 0, 0.2);
\x7d

h1 \x7b
    text-align: center;
    color: #333;
    margin-bottom: 0.5rem;
    font-size: 2.5rem;
\x7d

.menu-container > p \x7b
    text-align: center;
    color: #666;
    margin-bottom: 2rem;
    font-size: 1.1rem;
\x7d

.menu-list \x7b
    display: flex;
    flex-direction: column;
    gap: 1rem;
\x7d

.menu-item \x7b
    background: #f8f9fa;
    border-radius: 8px;
    padding: 1.5rem;
    border-left: 4px solid #667eea;
    transition: all 0.3s ease;
    cursor: pointer;
\x7d

.menu-item:hover \x7b
    background: #e9ecef;
    transform: translateY(-2px);
    box-shadow: 0 4px 12px rgba(0, 0, 0, 0.1);
\x7d

.menu-item h3 \x7b
    margin: 0 0 0.5rem 0;
    color: #333;
    font-size: 1.3rem;
\x7d

.package-description \x7b
    color: #555;
    font-size: 0.95rem;
    margin: 0 0 0.75rem 0;
    line-height: 1.4;
    font-style: italic;
\x7d

.package-info \x7b
    color: #666;
    font-size: 0.9rem;
    margin: 0 0 1rem 0;
\x7d

.menu-item button \x7b
    background: linear-gradient(135deg, #667eea 0%, #764ba2 100%);
    color: white;
    border: none;
    padding: 0.75rem 1.5rem;
    border-radius: 6px;
    cursor: pointer;
    font-size: 1rem;
    transition: transform 0.2s ease;
\x7d

.menu-item button:hover \x7b
    transform: translateY(-1px);
\x7d

@media (max-width: 768px) \x7b
    .menu-container \x7b
        margin: 0;
        padding: 1rem;
        border-radius: 0;
    \x7d
    
    h1 \x7b
        font-size: 2rem;
    \x7d
    
    .menu-item \x7b
        padding: 1rem;
    \x7d
\x7d
"

/-- Merged-manifest template segment 1 of 6 (`createMergedManifest`). -/
def manifestT1 : Str := strOf
  "<?xml version=\"1.0\" encoding=\"UTF-8\"?>
<manifest identifier=\""

/-- Merged-manifest template segment 2 of 6, part before the
`<schemaversion>` element (`createMergedManifest`). -/
def manifestT2a : Str := strOf
  "\" version=\"1.3\" 
          xmlns=\"http://www.imsglobal.org/xsd/imscp_v1p1\" 
          xmlns:adlcp=\"http://www.adlnet.org/xsd/adlcp_v1p3\" 
          xmlns:xsi=\"http://www.w3.org/2001/XMLSchema-instance\" 
          xsi:schemaLocation=\"http://www.imsglobal.org/xsd/imscp_v1p1 imscp_v1p1.xsd http://www.adlnet.org/xsd/adlcp_v1p3 adlcp_v1p3.xsd\">
  <metadata>
    <schema>ADL SCORM</schema>
    "

/-- The fixed `<schemaversion>` element of the merged manifest: the merged
shell always declares SCORM 2004 3rd Edition. -/
def schemaVersionXml : Str := strOf "<schemaversion>2004 3rd Edition</schemaversion>"

/-- Merged-manifest template segment 2 of 6, part after the
`<schemaversion>` element (`createMergedManifest`). -/
def manifestT2b : Str := strOf
  "
    <lom:lom xmlns:lom=\"http://ltsc.ieee.org/xsd/LOM\">
      <lom:general>
        <lom:title>
          <lom:string language=\"en\">Merged SCORM Package</lom:string>
        </lom:title>
      </lom:general>
    </lom:lom>
  </metadata>
  <organizations default=\""

/-- Merged-manifest template segment 2 of 6 (`createMergedManifest`). -/
def manifestT2 : Str := manifestT2a ++ schemaVersionXml ++ manifestT2b

/-- Merged-manifest template segment 3 of 6 (`createMergedManifest`). -/
def manifestT3 : Str := strOf
  "\">
    <organization identifier=\""

/-- Merged-manifest template segment 4 of 6 (`createMergedManifest`). -/
def manifestT4 : Str := strOf
  "\">
      <title>Merged SCORM Package</title>"

/-- Merged-manifest template segment 5 of 6 (`createMergedManifest`). -/
def manifestT5 : Str := strOf
  "
    </organization>
  </organizations>
  <resources>"

/-- Merged-manifest template segment 6 of 6 (`createMergedManifest`). -/
def manifestT6 : Str := strOf
  "
  </resources>
</manifest>"

/-- The fixed menu navigation item of the merged manifest
(`createMergedManifest`, `menuResourceId = 'menu_resource'`). -/
def menuItemXml : Str := strOf
  "\n        <item identifier=\"menu_item\" identifierref=\"menu_resource\">\n          <title>Course Menu</title>\n        </item>"

/-- The fixed menu resource of the merged manifest (`createMergedManifest`). -/
def menuResourceXml : Str := strOf
  "\n        <resource identifier=\"menu_resource\" type=\"webcontent\" adlcp:scormType=\"sco\" href=\"menu/index.html\">\n          <file href=\"menu/index.html\" />\n          <file href=\"menu/menu.js\" />\n          <file href=\"menu/style.css\" />\n        </resource>"

/-- The namespaced folder of the `n`-th package (1-based): `package_<n>`. -/
def packageFolder (n : Nat) : Str := strOf "package_" ++ natToStr n

/-- `createMergedManifest`'s main-resource path: the first resource with a
truthy `href`, else `resources[0]`'s `href` when truthy, else `'index.html'`. -/
def mainHref (pkg : Package) : Str :=
  match pkg.resources with
  | [] => strOf "index.html"
  | r0 :: _ =>
    let mr := (pkg.resources.find? (fun r => truthyOpt r.href)).getD r0
    match mr.href with
    | some h => if h.isEmpty then strOf "index.html" else h
    | none => strOf "index.html"

/-- One `<item>` block of the merged manifest for the `n`-th package (1-based). -/
def manifestItemBlock (n : Nat) (pkg : Package) : Str :=
  strOf "\n        <item identifier=\"item_" ++ natToStr n ++
    strOf "\" identifierref=\"resource_pkg_" ++ natToStr n ++
    strOf "\">\n          <title>" ++ escapeXml (getDisplayTitle pkg) ++
    strOf "</title>\n        </item>"

/-- One `<file>` reference of a package's manifest resource block. -/
def manifestFileRef (n : Nat) (file : Str) : Str :=
  strOf "\n          <file href=\"" ++ packageFolder n ++ strOf "/" ++ file ++ strOf "\" />"

/-- One `<resource>` block of the merged manifest for the `n`-th package (1-based). -/
def manifestResourceBlock (n : Nat) (pkg : Package) : Str :=
  strOf "\n        <resource identifier=\"resource_pkg_" ++ natToStr n ++
    strOf "\" type=\"webcontent\" adlcp:scormType=\"sco\" href=\"" ++
    packageFolder n ++ strOf "/" ++ mainHref pkg ++
    strOf "\">\n          <file href=\"" ++ packageFolder n ++ strOf "/" ++ mainHref pkg ++
    strOf "\" />" ++
    (pkg.resources.map (fun r => (r.files.map (manifestFileRef n)).flatten)).flatten ++
    strOf "\n        </resource>"

/-- `ScormProcessor.createMergedManifest`, with the generated
`uuidv4()` manifest identifier passed in as `manifestId`. -/
def createMergedManifest (manifestId : Str) (packages : List Package) : Str :=
  let organizations := menuItemXml ++
    (packages.enum.map (fun ip => manifestItemBlock (ip.1 + 1) ip.2)).flatten
  let resources := menuResourceXml ++
    (packages.enum.map (fun ip => manifestResourceBlock (ip.1 + 1) ip.2)).flatten
  manifestT1 ++ manifestId ++ manifestT2 ++ (strOf "org_" ++ manifestId) ++ manifestT3 ++
    (strOf "org_" ++ manifestId) ++ manifestT4 ++ organizations ++ manifestT5 ++
    resources ++ manifestT6

/-- JS `s || d` for strings: `d` when `s` is empty. -/
def jsOrDefault (s d : Str) : Str := if s.isEmpty then d else s

/-- JS template interpolation of a possibly-undefined string
(`${pkg.filename}` prints `undefined` when the field is absent). -/
def optFilenameText : Option Str → Str
  | some f => f
  | none => strOf "undefined"

/-- One per-package entry of the menu page (`createMenuFiles`, the
`packages.map` block of `menuHtml`). -/
def menuItemHtml (n : Nat) (pkg : Package) : Str :=
  strOf "\n            <div class=\"menu-item\" data-package=\"" ++ natToStr n ++
    strOf "\">\n                <h3>" ++ escapeXml (getDisplayTitle pkg) ++
    strOf "</h3>\n                <p class=\"package-description\">" ++
    escapeXml (jsOrDefault pkg.description (strOf "SCORM learning module")) ++
    strOf "</p>\n                <p class=\"package-info\">SCORM " ++ pkg.version ++
    strOf " • " ++ optFilenameText pkg.filename ++
    strOf "</p>\n                <button onclick=\"launchPackage(" ++ natToStr n ++
    strOf ")\">Launch Module</button>\n            </div>\n            "

/-- The full menu page (`createMenuFiles`, `menuHtml`). -/
def menuHtml (packages : List Package) : Str :=
  menuHtmlPre ++
    (packages.enum.map (fun ip => menuItemHtml (ip.1 + 1) ip.2)).flatten ++ menuHtmlPost

/-- Hexadecimal digit character. -/
def hexDigitChar (n : Nat) : Char :=
  if n < 10 then digitChar n
  else if n = 10 then 'a' else if n = 11 then 'b' else if n = 12 then 'c'
  else if n = 13 then 'd' else if n = 14 then 'e' else 'f'

/-- `JSON.stringify`'s escaping of one string character. -/
def jsonEscapeChar (c : Char) : Str :=
  if c = '"' then strOf "\\\""
  else if c = '\\' then strOf "\\\\"
  else if c = '\n' then strOf "\\n"
  else if c = '\r' then strOf "\\r"
  else if c = '\t' then strOf "\\t"
  else if c.toNat = 8 then strOf "\\b"
  else if c.toNat = 12 then strOf "\\f"
  else if c.toNat < 32 then
    strOf "\\u00" ++ [hexDigitChar (c.toNat / 16), hexDigitChar (c.toNat % 16)]
  else [c]

/-- `JSON.stringify` of a string value. -/
def jsonStr (s : Str) : Str := '"' :: (s.flatMap jsonEscapeChar ++ ['"'])

/-- Join with a separator (JS `Array.prototype.join`). -/
def joinSep (sep : Str) : List Str → Str
  | [] => []
  | [x] => x
  | x :: xs => x ++ sep ++ joinSep sep xs

/-- `pkg.resources?.[0]?.href || 'index.html'`: the launch target embedded in
the menu script's package data. -/
def menuMainFile (pkg : Package) : Str :=
  match pkg.resources with
  | [] => strOf "index.html"
  | r :: _ =>
    match r.href with
    | some h => if h.isEmpty then strOf "index.html" else h
    | none => strOf "index.html"

/-- The `JSON.stringify(packages.map(...))` value interpolated into
`menu/menu.js` (`createMenuFiles`). -/
def jsonPackageData (packages : List Package) : Str :=
  strOf "[" ++
    joinSep (strOf ",")
      (packages.map (fun pkg =>
        strOf "\x7b\"title\":" ++ jsonStr (getDisplayTitle pkg) ++
        strOf ",\"mainFile\":" ++ jsonStr (menuMainFile pkg) ++ strOf "\x7d")) ++
    strOf "]"

/-- The full menu script (`createMenuFiles`, `menuJs`). -/
def menuJs (packages : List Package) : Str :=
  menuJsPre ++ jsonPackageData packages ++ menuJsPost

/-- `ScormProcessor.createMenuFiles`: the three fixed menu assets, in the
source object's insertion order. -/
def createMenuFiles (packages : List Package) : List (Str × Str) :=
  [(strOf "menu/index.html", menuHtml packages),
   (strOf "menu/menu.js", menuJs packages),
   (strOf "menu/style.css", menuCssStr)]

/-- Case-insensitive markup-extension test of the merge copy loop:
`filename.toLowerCase().endsWith('.html') || ...endsWith('.htm')`. -/
def isHtmlName (name : Str) : Bool :=
  (strOf ".html").isSuffixOf (toLowerAscii name) ||
  (strOf ".htm").isSuffixOf (toLowerAscii name)

/-- The HTML-injection branch of `mergePackages`: splice the script before
the first `</head>`, else the first `</body>`, else the first `</html>`,
else append it at the end. -/
def injectFinishNavigation (script html : Str) : Str :=
  if occurs (strOf "</head>") html then
    replaceFirst (strOf "</head>") (script ++ strOf "\n</head>") html
  else if occurs (strOf "</body>") html then
    replaceFirst (strOf "</body>") (script ++ strOf "\n</body>") html
  else if occurs (strOf "</html>") html then
    replaceFirst (strOf "</html>") (script ++ strOf "\n</html>") html
  else html ++ script

/-- Per-file content transform of the merge copy loop: markup files receive
the finish-handler script, all other files pass through unchanged. -/
def processEntryContent (filename content : Str) : Str :=
  if isHtmlName filename then injectFinishNavigation finishHandlerScript content
  else content

/-- The output path and content of one copied archive entry of the `n`-th
package (1-based): `package_<n>/<original relative path>`. -/
def copyEntry (n : Nat) (e : ZipEntry) : Str × Str :=
  (packageFolder n ++ strOf "/" ++ e.filename, processEntryContent e.filename e.content)

/-- The merge copy step for one package: every entry except the root
`imsmanifest.xml` and directory entries, in archive order. -/
def packageCopiedEntries (n : Nat) (pkg : Package) : List (Str × Str) :=
  (pkg.entries.filter
    (fun e => !(e.filename == strOf "imsmanifest.xml") && !e.dir)).map (copyEntry n)

/-- One `onProgress` event of `mergePackages`. -/
structure ProgressEvent where
  step : Str
  progress : ℚ
deriving DecidableEq

/-- The observable outcome of `mergePackages`: the entries written to the
merged archive (in insertion order) and the progress events (in emission
order). -/
structure MergeResult where
  archive : List (Str × Str)
  events : List ProgressEvent
deriving DecidableEq

/-- The per-package loop of `mergePackages`, carrying the source's
`processedPackages` counter; `total` is `packages.length` of the whole call. -/
def mergeLoop (total : Nat) : Nat → List Package → List (Str × Str) × List ProgressEvent
  | _, [] => ([], [])
  | processed, pkg :: rest =>
    let evt : ProgressEvent :=
      ⟨strOf "Processing package: " ++ pkg.title,
        15 + ((processed : ℚ) / (total : ℚ)) * 70⟩
    let r := mergeLoop total (processed + 1) rest
    (packageCopiedEntries (processed + 1) pkg ++ r.1, evt :: r.2)

/-- `ScormProcessor.mergePackages`, with the generated `uuidv4()` manifest
identifier passed in as `manifestId`: root manifest, menu assets, then each
package's copied entries; progress milestones 5, 10, per-package, 90, 100. -/
def mergePackages (manifestId : Str) (packages : List Package) : MergeResult :=
  let mergedManifest := createMergedManifest manifestId packages
  let menuFiles := createMenuFiles packages
  let r := mergeLoop packages.length 0 packages
  { archive := (strOf "imsmanifest.xml", mergedManifest) :: (menuFiles ++ r.1),
    events := ⟨strOf "Creating merged manifest", 5⟩ :: ⟨strOf "Creating course menu", 10⟩ ::
      (r.2 ++ [⟨strOf "Generating final package", 90⟩, ⟨strOf "Complete", 100⟩]) }

/-- The argument record of the description generator
(`openaiService.generateDescription(courseData)`). -/
structure CourseData where
  title : Str
  filename : Option Str
  contentSample : Str
  existingDescription : Str
deriving DecidableEq

/-- `replace(/course|training|module|lesson/gi, '')` of
`getFallbackDescription`: a left-to-right scan deleting each
case-insensitive occurrence of the four words. -/
def removeTitleWords : Str → Str
  | [] => []
  | c :: rest =>
    if (strOf "course").isPrefixOf (toLowerAscii (c :: rest)) then
      removeTitleWords ((c :: rest).drop 6)
    else if (strOf "training").isPrefixOf (toLowerAscii (c :: rest)) then
      removeTitleWords ((c :: rest).drop 8)
    else if (strOf "module").isPrefixOf (toLowerAscii (c :: rest)) then
      removeTitleWords ((c :: rest).drop 6)
    else if (strOf "lesson").isPrefixOf (toLowerAscii (c :: rest)) then
      removeTitleWords ((c :: rest).drop 6)
    else c :: removeTitleWords rest
termination_by s => s.length
decreasing_by all_goals (simp only [List.length_drop, List.length_cons]; omega)

/-- The content-sample qualifier of `getFallbackDescription`
(`' that <up to two insights joined by and>'`). -/
def contentInsightsOf (contentSample : Str) : Str :=
  if 100 < contentSample.length then
    let content := toLowerAscii contentSample
    let insights : List Str :=
      (if occurs (strOf "quiz") content || occurs (strOf "question") content ||
          occurs (strOf "assessment") content then
        [strOf "includes interactive assessments"] else []) ++
      (if occurs (strOf "video") content || occurs (strOf "multimedia") content then
        [strOf "features multimedia content"] else []) ++
      (if occurs (strOf "exercise") content || occurs (strOf "practice") content ||
          occurs (strOf "activity") content then
        [strOf "provides hands-on exercises"] else []) ++
      (if occurs (strOf "certificate") content || occurs (strOf "completion") content then
        [strOf "offers completion certification"] else [])
    if insights.isEmpty then [] else strOf " that " ++ joinSep (strOf " and ") (insights.take 2)
  else []

/-- `OpenAIService.getFallbackDescription`: the rule-based description chain
over title keywords, with the content-sample qualifier appended.
`fallbackEnabled` and `defaultDescription` stand for
`config.get('descriptions.fallbackEnabled')` and
`config.get('descriptions.defaultDescription') || 'Interactive SCORM learning module'`. -/
def getFallbackDescription (fallbackEnabled : Bool) (defaultDescription : Str)
    (cd : CourseData) : Str :=
  if !fallbackEnabled then []
  else
    let contentInsights := contentInsightsOf cd.contentSample
    if cd.title ≠ [] ∧ cd.title ≠ strOf "Untitled" ∧ 3 < cd.title.length then
      let title := toLowerAscii cd.title
      if occurs (strOf "javascript") title || occurs (strOf "js") title then
        strOf "Build dynamic web applications using JavaScript programming techniques" ++
          contentInsights ++ strOf "."
      else if occurs (strOf "python") title then
        strOf "Develop Python applications and automate tasks using modern programming practices" ++
          contentInsights ++ strOf "."
      else if occurs (strOf "html") title || occurs (strOf "css") title then
        strOf "Create responsive web pages with HTML and CSS styling techniques" ++
          contentInsights ++ strOf "."
      else if occurs (strOf "react") title || occurs (strOf "angular") title ||
          occurs (strOf "vue") title then
        strOf "Build modern web applications using component-based frontend frameworks" ++
          contentInsights ++ strOf "."
      else if occurs (strOf "sql") title || occurs (strOf "database") title then
        strOf "Design and query databases effectively using SQL and data management principles" ++
          contentInsights ++ strOf "."
      else if occurs (strOf "leadership") title || occurs (strOf "management") title then
        strOf "Develop essential leadership skills and team management strategies for professional success" ++
          contentInsights ++ strOf "."
      else if occurs (strOf "marketing") title || occurs (strOf "sales") title then
        strOf "Master marketing strategies and sales techniques to drive business growth" ++
          contentInsights ++ strOf "."
      else if occurs (strOf "project") title && occurs (strOf "management") title then
        strOf "Learn project management methodologies and tools for successful project delivery" ++
          contentInsights ++ strOf "."
      else if occurs (strOf "communication") title || occurs (strOf "presentation") title then
        strOf "Enhance communication skills and presentation techniques for professional effectiveness" ++
          contentInsights ++ strOf "."
      else if occurs (strOf "math") title || occurs (strOf "calculus") title ||
          occurs (strOf "algebra") title then
        strOf "Solve mathematical problems and apply quantitative reasoning to real-world scenarios" ++
          contentInsights ++ strOf "."
      else if occurs (strOf "science") title || occurs (strOf "biology") title ||
          occurs (strOf "chemistry") title then
        strOf "Explore scientific principles and conduct experiments to understand natural phenomena" ++
          contentInsights ++ strOf "."
      else if occurs (strOf "history") title || occurs (strOf "social") title then
        strOf "Examine historical events and social dynamics to understand their impact on modern society" ++
          contentInsights ++ strOf "."
      else if occurs (strOf "language") title || occurs (strOf "english") title ||
          occurs (strOf "writing") title then
        strOf "Improve language skills and written communication through structured learning activities" ++
          contentInsights ++ strOf "."
      else if occurs (strOf "safety") title || occurs (strOf "health") title then
        strOf "Implement safety protocols and health practices to create a secure work environment" ++
          contentInsights ++ strOf "."
      else if occurs (strOf "compliance") title || occurs (strOf "regulation") title then
        strOf "Understand regulatory requirements and compliance procedures for your industry" ++
          contentInsights ++ strOf "."
      else
        let cleanTitle := jsTrim (removeTitleWords cd.title)
        if 2 < cleanTitle.length then
          strOf "Gain practical knowledge and skills in " ++ cleanTitle ++
            strOf " through engaging learning activities" ++ contentInsights ++ strOf "."
        else defaultDescription ++ contentInsights ++ strOf "."
    else defaultDescription ++ contentInsights ++ strOf "."

/-- `OpenAIService.generateDescription`. `enabled` is `isEnabled()`; `extGen`
is the external chat-completions call (`none` = error or timeout). The
Boolean result records whether the external generator was invoked. -/
def openaiGenerateDescription (enabled fallbackEnabled : Bool) (defaultDescription : Str)
    (extGen : CourseData → Option Str) (cd : CourseData) : Str × Bool :=
  if !enabled then (getFallbackDescription fallbackEnabled defaultDescription cd, false)
  else
    match extGen cd with
    | some raw =>
      let description := jsTrim raw
      if description ≠ [] ∧ 10 < description.length then (description, true)
      else (getFallbackDescription fallbackEnabled defaultDescription cd, true)
    | none => (getFallbackDescription fallbackEnabled defaultDescription cd, true)

/-- `ScormProcessor.generateDescription` (the upload-path per-package step):
an existing description whose trimmed length exceeds 10 is returned trimmed,
without reaching the generator; otherwise the OpenAI service is consulted.
The Boolean result records whether the external generator was invoked. -/
def generateDescription (enabled fallbackEnabled : Bool) (defaultDescription : Str)
    (extGen : CourseData → Option Str) (pkg : Package) : Str × Bool :=
  if pkg.description ≠ [] ∧ 10 < (jsTrim pkg.description).length then
    (jsTrim pkg.description, false)
  else
    openaiGenerateDescription enabled fallbackEnabled defaultDescription extGen
      { title := getDisplayTitle pkg, filename := pkg.filename,
        contentSample := pkg.contentSample, existingDescription := pkg.description }

/-- The per-package step of `DescriptionTaskManager.processDescriptions`: the
background task calls `openaiService.generateDescription` directly with the
package's own title and existing description. The Boolean result records
whether the external generator was invoked. -/
def taskProcessPackage (enabled fallbackEnabled : Bool) (defaultDescription : Str)
    (extGen : CourseData → Option Str) (pkg : Package) : Str × Bool :=
  openaiGenerateDescription enabled fallbackEnabled defaultDescription extGen
    { title := pkg.title, filename := pkg.filename,
      contentSample := pkg.contentSample, existingDescription := pkg.description }

/-- Task lifecycle states of `DescriptionTaskManager`. -/
inductive TaskStatus where
  | running
  | completed
  | cancelled
  | failed
deriving DecidableEq

/-- The JS string naming a task status. -/
def statusStr : TaskStatus → Str
  | .running => strOf "running"
  | .completed => strOf "completed"
  | .cancelled => strOf "cancelled"
  | .failed => strOf "failed"

/-- One task record of `DescriptionTaskManager.activeTasks`. -/
structure DescTask where
  id : Str
  status : TaskStatus
  startTime : Nat
  completed : Nat
  total : Nat
  cancelled : Bool
  error : Option Str
deriving DecidableEq

/-- The two session maps of the `DescriptionTaskManager` singleton, as
association lists keyed by session id. -/
structure TaskManagerState where
  activeTasks : List (Str × DescTask)
  taskResults : List (Str × List (Str × Str))
deriving DecidableEq

/-- `this.activeTasks.get(sessionId)`. -/
def lookupTask (st : TaskManagerState) (sessionId : Str) : Option DescTask :=
  (st.activeTasks.find? (fun p => p.1 == sessionId)).map (fun p => p.2)

/-- In-place mutation of the task object stored under `sessionId`. -/
def setTask (st : TaskManagerState) (sessionId : Str) (t : DescTask) : TaskManagerState :=
  { st with
    activeTasks := st.activeTasks.map (fun p => if p.1 == sessionId then (p.1, t) else p) }

/-- `DescriptionTaskManager.cancelTask`: when a task exists for the session
and is running, set its `cancelled` flag, move it to `cancelled`, and return
`true`; otherwise return `false` and leave the state untouched. -/
def cancelTask (st : TaskManagerState) (sessionId : Str) : Bool × TaskManagerState :=
  match lookupTask st sessionId with
  | some task =>
    if task.status = TaskStatus.running then
      (true, setTask st sessionId
        { task with cancelled := true, status := TaskStatus.cancelled })
    else (false, st)
  | none => (false, st)

/-- JS `Math.round` on a non-negative rational. -/
def jsRound (q : ℚ) : ℤ := ⌊q + 1 / 2⌋

/-- The record `DescriptionTaskManager.getTaskStatus` returns; for an unknown
session only `status` is present (`'not_found'`). `duration` is relative to
the caller-supplied current time. -/
structure TaskStatusReport where
  status : Str
  id : Option Str
  progress : Option ℤ
  completed : Option Nat
  total : Option Nat
  startTime : Option Nat
  duration : Option Nat
  cancelled : Option Bool
  error : Option (Option Str)
deriving DecidableEq

/-- `DescriptionTaskManager.getTaskStatus`. -/
def getTaskStatus (st : TaskManagerState) (sessionId : Str) (now : Nat) : TaskStatusReport :=
  match lookupTask st sessionId with
  | none =>
    { status := strOf "not_found", id := none, progress := none, completed := none,
      total := none, startTime := none, duration := none, cancelled := none, error := none }
  | some task =>
    { status := statusStr task.status,
      id := some task.id,
      progress := some (if 0 < task.total then
        jsRound (((task.completed : ℚ) / (task.total : ℚ)) * 100) else 0),
      completed := some task.completed,
      total := some task.total,
      startTime := some task.startTime,
      duration := some (now - task.startTime),
      cancelled := some task.cancelled,
      error := some task.error }

/-- `DescriptionTaskManager.getTaskResults`: the per-session result map, or
an empty map for an unknown session. -/
def getTaskResults (st : TaskManagerState) (sessionId : Str) : List (Str × Str) :=
  ((st.taskResults.find? (fun p => p.1 == sessionId)).map (fun p => p.2)).getD []

/-- The path prefix `package_<n>/` of the `n`-th package's folder. -/
def packagePathPfx (n : Nat) : Str := packageFolder n ++ strOf "/"

/-- The archive entries lying under `package_<n>/`, in archive order. -/
def entriesUnder (archive : List (Str × Str)) (n : Nat) : List (Str × Str) :=
  archive.filter (fun e => (packagePathPfx n).isPrefixOf e.1)

/-- How many archive entries carry exactly the given path. -/
def countName (archive : List (Str × Str)) (name : Str) : Nat :=
  (archive.filter (fun e => e.1 == name)).length

/-- The patterns each occur in the string, in the given order, without
overlapping. -/
def appearsInOrder : List Str → Str → Prop
  | [], _ => True
  | p :: ps, s => ∃ pre rest, s = pre ++ p ++ rest ∧ appearsInOrder ps rest

/-- The same package with its version string blanked (used to state that an
output is independent of the version fields). -/
def eraseVersion (pkg : Package) : Package := { pkg with version := [] }

/-- `pat` occurs in `s` at index `i` and at no earlier index. -/
def isFirstOccAt (pat s : Str) (i : Nat) : Prop :=
  pat.isPrefixOf (s.drop i) = true ∧ ∀ j < i, pat.isPrefixOf (s.drop j) = false

/-- A small concrete package used by witnesses: a root manifest, a directory
entry, a nested manifest, and a markup file. -/
def demoPackage : Package :=
  { title := strOf "Demo", description := [], version := strOf "1.2",
    filename := some (strOf "demo.zip"), contentSample := [],
    resources := [],
    entries := [⟨strOf "imsmanifest.xml", false, strOf "<m/>"⟩,
                ⟨strOf "sub/", true, []⟩,
                ⟨strOf "sub/imsmanifest.xml", false, strOf "<n/>"⟩,
                ⟨strOf "a.html", false, strOf "<p>x</p>"⟩] }

/-- The spec scenario's first package: title "Zebra Course". -/
def zebraPackage : Package :=
  { title := strOf "Zebra Course", description := [], version := strOf "1.2",
    filename := some (strOf "zebra.zip"), contentSample := [],
    resources := [], entries := [] }

/-- The spec scenario's second package: title "Apple Course". -/
def applePackage : Package :=
  { title := strOf "Apple Course", description := [], version := strOf "2004 3rd Edition",
    filename := some (strOf "apple.zip"), contentSample := [],
    resources := [], entries := [] }

/-! Theorems. The claim theorems are assembled from the shared helper
lemmas; claim theorems are not reused by any other proof. -/

theorem digitChar_isDigit (n : Nat) (h : n < 10) : isDigitChar (digitChar n) = true := by
  interval_cases n <;> decide

theorem digitVal_digitChar (n : Nat) (h : n < 10) : digitVal (digitChar n) = n := by
  interval_cases n <;> decide

theorem natToStr_digits (n : Nat) : ∀ c ∈ natToStr n, isDigitChar c = true := by
  induction n using Nat.strong_induction_on with
  | _ n ih =>
    intro c hc
    rw [natToStr] at hc
    split at hc
    · simp only [List.mem_singleton] at hc
      subst hc; exact digitChar_isDigit n (by omega)
    · rcases List.mem_append.mp hc with h | h
      · exact ih (n / 10) (Nat.div_lt_self (by omega) (by omega)) c h
      · simp only [List.mem_singleton] at h
        subst h; exact digitChar_isDigit (n % 10) (Nat.mod_lt _ (by omega))

theorem strToNat_append (a b : Str) :
    strToNat (a ++ b) = b.foldl (fun acc c => acc * 10 + digitVal c) (strToNat a) := by
  simp [strToNat, List.foldl_append]

theorem strToNat_natToStr (n : Nat) : strToNat (natToStr n) = n := by
  induction n using Nat.strong_induction_on with
  | _ n ih =>
    rw [natToStr]
    split
    · simp [strToNat, List.foldl, digitVal_digitChar n (by omega)]
    · rw [strToNat_append, ih (n / 10) (Nat.div_lt_self (by omega) (by omega))]
      simp [List.foldl, digitVal_digitChar (n % 10) (Nat.mod_lt _ (by omega))]
      omega

theorem natToStr_injective : Function.Injective natToStr := by
  intro a b h
  have := strToNat_natToStr a
  rw [h, strToNat_natToStr] at this
  omega

theorem natToStr_no_slash (n : Nat) : '/' ∉ natToStr n := by
  intro h
  have := natToStr_digits n '/' h
  simp [isDigitChar] at this

theorem bool_eq_false_of_not {b : Bool} (h : ¬ b = true) : b = false := by
  cases b
  · rfl
  · exact absurd rfl h

theorem isPrefixOf_iff_exists {p s : Str} : p.isPrefixOf s = true ↔ ∃ t, s = p ++ t := by
  induction p generalizing s with
  | nil => simp [List.isPrefixOf]
  | cons a as ih =>
    cases s with
    | nil => simp
    | cons b bs =>
      rw [List.isPrefixOf_cons₂]
      simp only [Bool.and_eq_true, beq_iff_eq, ih, List.cons_append, List.cons.injEq]
      constructor
      · rintro ⟨rfl, t, rfl⟩; exact ⟨t, rfl, rfl⟩
      · rintro ⟨t, rfl, rfl⟩; exact ⟨rfl, t, rfl⟩

theorem occIdx_some_spec {pat : Str} : ∀ {s : Str} {i : Nat}, occIdx pat s = some i →
    pat.isPrefixOf (s.drop i) = true ∧ ∀ j < i, pat.isPrefixOf (s.drop j) = false := by
  intro s
  induction s with
  | nil =>
    intro i h
    rw [occIdx] at h
    split at h
    · cases h
      exact ⟨‹pat.isPrefixOf [] = true›, by omega⟩
    · cases h
  | cons c t ih =>
    intro i h
    rw [occIdx] at h
    split at h
    · cases h
      refine ⟨‹pat.isPrefixOf (c :: t) = true›, by omega⟩
    · rcases Option.map_eq_some'.mp h with ⟨i', hi', rfl⟩
      rcases ih hi' with ⟨h1, h2⟩
      refine ⟨h1, ?_⟩
      intro j hj
      cases j with
      | zero => exact bool_eq_false_of_not ‹¬ pat.isPrefixOf (c :: t) = true›
      | succ j' => exact h2 j' (by omega)

theorem occIdx_none_spec {pat : Str} : ∀ {s : Str}, occIdx pat s = none →
    ∀ j, pat.isPrefixOf (s.drop j) = false := by
  intro s
  induction s with
  | nil =>
    intro h j
    rw [occIdx] at h
    split at h
    · cases h
    · cases j <;> exact bool_eq_false_of_not ‹¬ pat.isPrefixOf [] = true›
  | cons c t ih =>
    intro h j
    rw [occIdx] at h
    split at h
    · cases h
    · rw [Option.map_eq_none'] at h
      cases j with
      | zero => exact bool_eq_false_of_not ‹¬ pat.isPrefixOf (c :: t) = true›
      | succ j' => exact ih h j'

theorem occurs_iff_occIdx {pat : Str} : ∀ {s : Str},
    occurs pat s = true ↔ ∃ i, occIdx pat s = some i := by
  intro s
  induction s with
  | nil =>
    rw [occurs, occIdx]
    split
    · simp_all
    · simp_all
  | cons c t ih =>
    rw [occurs, occIdx]
    split
    · simp_all
    · simp only [Bool.or_eq_true, ih]
      constructor
      · rintro (h | ⟨i, hi⟩)
        · simp_all
        · exact ⟨i + 1, by rw [hi]; rfl⟩
      · rintro ⟨i, hi⟩
        rcases Option.map_eq_some'.mp hi with ⟨i', hi', rfl⟩
        exact Or.inr ⟨i', hi'⟩

theorem splice_of_isPrefixOf_drop {pat s : Str} {i : Nat}
    (h : pat.isPrefixOf (s.drop i) = true) :
    s = s.take i ++ pat ++ s.drop (i + pat.length) := by
  rcases isPrefixOf_iff_exists.mp h with ⟨u, hu⟩
  have h2 : s.drop (i + pat.length) = u := by
    rw [← List.drop_drop, hu, List.drop_left]
  rw [h2, List.append_assoc, ← hu, List.take_append_drop]

theorem replaceFirst_splice {pat repl : Str} : ∀ {s : Str} {i : Nat},
    occIdx pat s = some i →
    replaceFirst pat repl s = s.take i ++ repl ++ s.drop (i + pat.length) := by
  intro s
  induction s with
  | nil =>
    intro i h
    rw [occIdx] at h
    split at h
    · cases h
      rw [replaceFirst]
      simp_all
    · cases h
  | cons c t ih =>
    intro i h
    rw [occIdx] at h
    rw [replaceFirst]
    split at h
    · cases h
      simp_all
    · rcases Option.map_eq_some'.mp h with ⟨i', hi', rfl⟩
      rw [if_neg ‹¬ pat.isPrefixOf (c :: t) = true›, ih hi']
      have : i' + 1 + pat.length = (i' + pat.length) + 1 := by omega
      rw [this]
      simp

theorem jsReplaceAll_nil (c : Char) (r : Str) : jsReplaceAll c r [] = [] := rfl

theorem jsReplaceAll_cons (c : Char) (r : Str) (x : Char) (t : Str) :
    jsReplaceAll c r (x :: t) = (if x = c then r else [x]) ++ jsReplaceAll c r t := by
  simp [jsReplaceAll]

theorem jsReplaceAll_append (c : Char) (r : Str) (a b : Str) :
    jsReplaceAll c r (a ++ b) = jsReplaceAll c r a ++ jsReplaceAll c r b := by
  simp [jsReplaceAll]

theorem escapeXml_nil : escapeXml [] = [] := rfl

theorem escapeXml_cons (x : Char) (t : Str) :
    escapeXml (x :: t) = escapeXmlChar x ++ escapeXml t := by
  unfold escapeXml
  rw [jsReplaceAll_cons, jsReplaceAll_append, jsReplaceAll_append, jsReplaceAll_append,
    jsReplaceAll_append]
  congr 1
  by_cases h1 : x = '&'
  · subst h1; decide
  by_cases h2 : x = '<'
  · subst h2; decide
  by_cases h3 : x = '>'
  · subst h3; decide
  by_cases h4 : x = '"'
  · subst h4; decide
  by_cases h5 : x = '\''
  · subst h5; decide
  simp [jsReplaceAll, escapeXmlChar, h1, h2, h3, h4, h5]

theorem escapeXml_eq_flatMap (s : Str) : escapeXml s = s.flatMap escapeXmlChar := by
  induction s with
  | nil => rfl
  | cons x t ih => rw [escapeXml_cons, ih, List.flatMap_cons]

theorem not_eq_true_of_eq_false {b : Bool} (h : b = false) : ¬ b = true := by
  simp [h]

theorem isPrefixOf_cons_head_ne {a b : Char} {as bs : Str} (h : ¬ a = b) :
    (a :: as).isPrefixOf (b :: bs) = false := by
  rw [List.isPrefixOf_cons₂]
  have : (a == b) = false := beq_eq_false_iff_ne.mpr h
  simp [this]

theorem unescapeXml_escapeXml {s : Str} (hs : ∀ c ∈ s, xmlSafeChar c = true) :
    unescapeXml (escapeXml s) = s := by
  induction s with
  | nil => rw [escapeXml_nil, unescapeXml]
  | cons c t ih =>
    have ht : ∀ x ∈ t, xmlSafeChar x = true := fun x hx => hs x (List.mem_cons_of_mem c hx)
    have ihx := ih ht
    rw [escapeXml_cons]
    by_cases h1 : c = '&'
    · subst h1
      show unescapeXml ('&' :: (strOf "amp;" ++ escapeXml t)) = '&' :: t
      have c1 : (strOf "amp;").isPrefixOf (strOf "amp;" ++ escapeXml t) = true :=
        isPrefixOf_iff_exists.mpr ⟨_, rfl⟩
      rw [unescapeXml, if_pos rfl, if_pos c1,
        show (4 : Nat) = (strOf "amp;").length from rfl, List.drop_left, ihx]
    · by_cases h2 : c = '<'
      · subst h2
        show unescapeXml ('&' :: (strOf "lt;" ++ escapeXml t)) = '<' :: t
        have c1 : (strOf "amp;").isPrefixOf (strOf "lt;" ++ escapeXml t) = false := by
          show ('a' :: strOf "mp;").isPrefixOf ('l' :: ('t' :: ';' :: escapeXml t)) = false
          exact isPrefixOf_cons_head_ne (by decide)
        have c2 : (strOf "lt;").isPrefixOf (strOf "lt;" ++ escapeXml t) = true :=
          isPrefixOf_iff_exists.mpr ⟨_, rfl⟩
        rw [unescapeXml, if_pos rfl, if_neg (not_eq_true_of_eq_false c1), if_pos c2,
          show (3 : Nat) = (strOf "lt;").length from rfl, List.drop_left, ihx]
      · by_cases h3 : c = '>'
        · subst h3
          show unescapeXml ('&' :: (strOf "gt;" ++ escapeXml t)) = '>' :: t
          have c1 : (strOf "amp;").isPrefixOf (strOf "gt;" ++ escapeXml t) = false := by
            show ('a' :: strOf "mp;").isPrefixOf ('g' :: ('t' :: ';' :: escapeXml t)) = false
            exact isPrefixOf_cons_head_ne (by decide)
          have c2 : (strOf "lt;").isPrefixOf (strOf "gt;" ++ escapeXml t) = false := by
            show ('l' :: strOf "t;").isPrefixOf ('g' :: ('t' :: ';' :: escapeXml t)) = false
            exact isPrefixOf_cons_head_ne (by decide)
          have c3 : (strOf "gt;").isPrefixOf (strOf "gt;" ++ escapeXml t) = true :=
            isPrefixOf_iff_exists.mpr ⟨_, rfl⟩
          rw [unescapeXml, if_pos rfl, if_neg (not_eq_true_of_eq_false c1),
            if_neg (not_eq_true_of_eq_false c2), if_pos c3,
            show (3 : Nat) = (strOf "gt;").length from rfl, List.drop_left, ihx]
        · by_cases h4 : c = '"'
          · subst h4
            show unescapeXml ('&' :: (strOf "quot;" ++ escapeXml t)) = '"' :: t
            have c1 : (strOf "amp;").isPrefixOf (strOf "quot;" ++ escapeXml t) = false := by
              show ('a' :: strOf "mp;").isPrefixOf
                ('q' :: ('u' :: 'o' :: 't' :: ';' :: escapeXml t)) = false
              exact isPrefixOf_cons_head_ne (by decide)
            have c2 : (strOf "lt;").isPrefixOf (strOf "quot;" ++ escapeXml t) = false := by
              show ('l' :: strOf "t;").isPrefixOf
                ('q' :: ('u' :: 'o' :: 't' :: ';' :: escapeXml t)) = false
              exact isPrefixOf_cons_head_ne (by decide)
            have c3 : (strOf "gt;").isPrefixOf (strOf "quot;" ++ escapeXml t) = false := by
              show ('g' :: strOf "t;").isPrefixOf
                ('q' :: ('u' :: 'o' :: 't' :: ';' :: escapeXml t)) = false
              exact isPrefixOf_cons_head_ne (by decide)
            have c4 : (strOf "quot;").isPrefixOf (strOf "quot;" ++ escapeXml t) = true :=
              isPrefixOf_iff_exists.mpr ⟨_, rfl⟩
            rw [unescapeXml, if_pos rfl, if_neg (not_eq_true_of_eq_false c1),
              if_neg (not_eq_true_of_eq_false c2), if_neg (not_eq_true_of_eq_false c3),
              if_pos c4,
              show (5 : Nat) = (strOf "quot;").length from rfl, List.drop_left, ihx]
          · by_cases h5 : c = '\''
            · subst h5
              show unescapeXml ('&' :: (strOf "#39;" ++ escapeXml t)) = '\'' :: t
              have c1 : (strOf "amp;").isPrefixOf (strOf "#39;" ++ escapeXml t) = false := by
                show ('a' :: strOf "mp;").isPrefixOf
                  ('#' :: ('3' :: '9' :: ';' :: escapeXml t)) = false
                exact isPrefixOf_cons_head_ne (by decide)
              have c2 : (strOf "lt;").isPrefixOf (strOf "#39;" ++ escapeXml t) = false := by
                show ('l' :: strOf "t;").isPrefixOf
                  ('#' :: ('3' :: '9' :: ';' :: escapeXml t)) = false
                exact isPrefixOf_cons_head_ne (by decide)
              have c3 : (strOf "gt;").isPrefixOf (strOf "#39;" ++ escapeXml t) = false := by
                show ('g' :: strOf "t;").isPrefixOf
                  ('#' :: ('3' :: '9' :: ';' :: escapeXml t)) = false
                exact isPrefixOf_cons_head_ne (by decide)
              have c4 : (strOf "quot;").isPrefixOf (strOf "#39;" ++ escapeXml t) = false := by
                show ('q' :: strOf "uot;").isPrefixOf
                  ('#' :: ('3' :: '9' :: ';' :: escapeXml t)) = false
                exact isPrefixOf_cons_head_ne (by decide)
              have c5 : (strOf "#39;").isPrefixOf (strOf "#39;" ++ escapeXml t) = true :=
                isPrefixOf_iff_exists.mpr ⟨_, rfl⟩
              rw [unescapeXml, if_pos rfl, if_neg (not_eq_true_of_eq_false c1),
                if_neg (not_eq_true_of_eq_false c2), if_neg (not_eq_true_of_eq_false c3),
                if_neg (not_eq_true_of_eq_false c4), if_pos c5,
                show (4 : Nat) = (strOf "#39;").length from rfl, List.drop_left, ihx]
            · have hc : escapeXmlChar c = [c] := by
                rw [escapeXmlChar, if_neg h1, if_neg h2, if_neg h3, if_neg h4, if_neg h5]
              rw [hc]
              show unescapeXml (c :: escapeXml t) = c :: t
              rw [unescapeXml, if_neg h1, ihx]

theorem mem_escapeXmlChar_not_special {x c : Char} (h : c ∈ escapeXmlChar x) :
    ¬ c = '<' ∧ ¬ c = '>' ∧ ¬ c = '"' ∧ ¬ c = '\'' := by
  by_cases h1 : x = '&'
  · subst h1
    have h' : c ∈ ['&', 'a', 'm', 'p', ';'] := h
    fin_cases h' <;> decide
  by_cases h2 : x = '<'
  · subst h2
    have h' : c ∈ ['&', 'l', 't', ';'] := h
    fin_cases h' <;> decide
  by_cases h3 : x = '>'
  · subst h3
    have h' : c ∈ ['&', 'g', 't', ';'] := h
    fin_cases h' <;> decide
  by_cases h4 : x = '"'
  · subst h4
    have h' : c ∈ ['&', 'q', 'u', 'o', 't', ';'] := h
    fin_cases h' <;> decide
  by_cases h5 : x = '\''
  · subst h5
    have h' : c ∈ ['&', '#', '3', '9', ';'] := h
    fin_cases h' <;> decide
  rw [escapeXmlChar, if_neg h1, if_neg h2, if_neg h3, if_neg h4, if_neg h5] at h
  simp only [List.mem_singleton] at h
  subst h
  exact ⟨h2, h3, h4, h5⟩

theorem flatMap_congr_mem {l : Str} {f g : Char → Str}
    (h : ∀ a ∈ l, f a = g a) : l.flatMap f = l.flatMap g := by
  induction l with
  | nil => rfl
  | cons a t ih =>
    rw [List.flatMap_cons, List.flatMap_cons, h a (List.mem_cons_self a t),
      ih (fun x hx => h x (List.mem_cons_of_mem a hx))]

theorem escapeXml_twice (s : Str) :
    escapeXml (escapeXml s) =
      (escapeXml s).flatMap (fun c => if c = '&' then strOf "&amp;" else [c]) := by
  rw [escapeXml_eq_flatMap (escapeXml s)]
  apply flatMap_congr_mem
  intro a ha
  rw [escapeXml_eq_flatMap] at ha
  rcases List.mem_flatMap.mp ha with ⟨x, _hx, hax⟩
  rcases mem_escapeXmlChar_not_special hax with ⟨n2, n3, n4, n5⟩
  by_cases h1 : a = '&'
  · subst h1; decide
  · rw [escapeXmlChar, if_neg h1, if_neg n2, if_neg n3, if_neg n4, if_neg n5, if_neg h1]

theorem escapeXmlChar_amp : escapeXmlChar '&' = strOf "&amp;" := by decide

theorem escapeXmlChar_lt : escapeXmlChar '<' = strOf "&lt;" := by decide

theorem escapeXmlChar_gt : escapeXmlChar '>' = strOf "&gt;" := by decide

theorem escapeXmlChar_quot : escapeXmlChar '"' = strOf "&quot;" := by decide

theorem escapeXmlChar_apos : escapeXmlChar '\'' = strOf "&#39;" := by decide

theorem escapeXmlChar_other {c : Char} (h1 : ¬ c = '&') (h2 : ¬ c = '<') (h3 : ¬ c = '>')
    (h4 : ¬ c = '"') (h5 : ¬ c = '\'') : escapeXmlChar c = [c] := by
  rw [escapeXmlChar, if_neg h1, if_neg h2, if_neg h3, if_neg h4, if_neg h5]

/-- C6: `escapeXml` maps exactly the five characters `& < > " '` to their
XML entities and leaves every other character unchanged (it equals the
charwise entity map); re-escaping escaped text touches nothing beyond the
five-character mapping (the output contains no `< > " '`, so a second pass
only expands `&`); and a standard XML unescape recovers any input drawn
from the five special characters plus ASCII letters and digits. -/
theorem escapeXml_five_char_map_and_roundtrip :
    (∀ s : Str, escapeXml s = s.flatMap escapeXmlChar) ∧
    (escapeXmlChar '&' = strOf "&amp;" ∧ escapeXmlChar '<' = strOf "&lt;" ∧
      escapeXmlChar '>' = strOf "&gt;" ∧ escapeXmlChar '"' = strOf "&quot;" ∧
      escapeXmlChar '\'' = strOf "&#39;") ∧
    (∀ c : Char, ¬ c = '&' → ¬ c = '<' → ¬ c = '>' → ¬ c = '"' → ¬ c = '\'' →
      escapeXmlChar c = [c]) ∧
    (∀ s : Str, ∀ c ∈ escapeXml s, ¬ c = '<' ∧ ¬ c = '>' ∧ ¬ c = '"' ∧ ¬ c = '\'') ∧
    (∀ s : Str, escapeXml (escapeXml s) =
      (escapeXml s).flatMap (fun c => if c = '&' then strOf "&amp;" else [c])) ∧
    (∀ s : Str, (∀ c ∈ s, xmlSafeChar c = true) → unescapeXml (escapeXml s) = s) := by
  refine ⟨escapeXml_eq_flatMap,
    ⟨escapeXmlChar_amp, escapeXmlChar_lt, escapeXmlChar_gt, escapeXmlChar_quot,
      escapeXmlChar_apos⟩,
    fun c h1 h2 h3 h4 h5 => escapeXmlChar_other h1 h2 h3 h4 h5, ?_,
    escapeXml_twice, fun s hs => unescapeXml_escapeXml hs⟩
  intro s c hc
  rw [escapeXml_eq_flatMap] at hc
  rcases List.mem_flatMap.mp hc with ⟨x, _, hcx⟩
  exact mem_escapeXmlChar_not_special hcx

/-- C6 witness: the theorem applied at concrete inputs — `"a<b&"` escapes
charwise to `"a&lt;b&amp;"`, a second pass expands only `&`, and the
round-trip recovers `"a<b&"`. -/
theorem escapeXml_five_char_map_and_roundtrip_witness :
    escapeXml (strOf "a<b&") = strOf "a&lt;b&amp;" ∧
    unescapeXml (escapeXml (strOf "a<b&")) = strOf "a<b&" := by
  have h := escapeXml_five_char_map_and_roundtrip
  refine ⟨?_, h.2.2.2.2.2 (strOf "a<b&") (by decide)⟩
  rw [h.1 (strOf "a<b&")]
  decide

theorem occurs_eq_false_of_occIdx_none {pat s : Str} (h : occIdx pat s = none) :
    occurs pat s = false := by
  apply bool_eq_false_of_not
  intro hocc
  rcases occurs_iff_occIdx.mp hocc with ⟨i, hi⟩
  rw [h] at hi
  cases hi

/-- C4: for every copied file whose name ends in `.html`/`.htm`, the merge
splices the finish-handler script immediately before the first `</head>`
when one occurs, else before the first `</body>`, else before the first
`</html>`, and appends it at the end when none of the three closing tags
occurs; outside the insertion point every byte is unchanged (the result is
take/script/tag/drop of the original document). -/
theorem merge_html_injection_spec (name content : Str) (h : isHtmlName name = true) :
    (∀ i, occIdx (strOf "</head>") content = some i →
      isFirstOccAt (strOf "</head>") content i ∧
      processEntryContent name content =
        content.take i ++ finishHandlerScript ++ strOf "\n</head>" ++ content.drop (i + 7)) ∧
    (occIdx (strOf "</head>") content = none →
      ∀ i, occIdx (strOf "</body>") content = some i →
        isFirstOccAt (strOf "</body>") content i ∧
        processEntryContent name content =
          content.take i ++ finishHandlerScript ++ strOf "\n</body>" ++ content.drop (i + 7)) ∧
    (occIdx (strOf "</head>") content = none →
      occIdx (strOf "</body>") content = none →
      ∀ i, occIdx (strOf "</html>") content = some i →
        isFirstOccAt (strOf "</html>") content i ∧
        processEntryContent name content =
          content.take i ++ finishHandlerScript ++ strOf "\n</html>" ++ content.drop (i + 7)) ∧
    (occIdx (strOf "</head>") content = none →
      occIdx (strOf "</body>") content = none →
      occIdx (strOf "</html>") content = none →
      processEntryContent name content = content ++ finishHandlerScript) := by
  rw [processEntryContent, if_pos h]
  refine ⟨?_, ?_, ?_, ?_⟩
  · intro i hi
    rcases occIdx_some_spec hi with ⟨h1, h2⟩
    refine ⟨⟨h1, h2⟩, ?_⟩
    rw [injectFinishNavigation, if_pos (occurs_iff_occIdx.mpr ⟨i, hi⟩),
      replaceFirst_splice hi,
      show (strOf "</head>").length = 7 from by decide]
    simp [List.append_assoc]
  · intro hn1 i hi
    rcases occIdx_some_spec hi with ⟨h1, h2⟩
    refine ⟨⟨h1, h2⟩, ?_⟩
    rw [injectFinishNavigation,
      if_neg (not_eq_true_of_eq_false (occurs_eq_false_of_occIdx_none hn1)),
      if_pos (occurs_iff_occIdx.mpr ⟨i, hi⟩), replaceFirst_splice hi,
      show (strOf "</body>").length = 7 from by decide]
    simp [List.append_assoc]
  · intro hn1 hn2 i hi
    rcases occIdx_some_spec hi with ⟨h1, h2⟩
    refine ⟨⟨h1, h2⟩, ?_⟩
    rw [injectFinishNavigation,
      if_neg (not_eq_true_of_eq_false (occurs_eq_false_of_occIdx_none hn1)),
      if_neg (not_eq_true_of_eq_false (occurs_eq_false_of_occIdx_none hn2)),
      if_pos (occurs_iff_occIdx.mpr ⟨i, hi⟩), replaceFirst_splice hi,
      show (strOf "</html>").length = 7 from by decide]
    simp [List.append_assoc]
  · intro hn1 hn2 hn3
    rw [injectFinishNavigation,
      if_neg (not_eq_true_of_eq_false (occurs_eq_false_of_occIdx_none hn1)),
      if_neg (not_eq_true_of_eq_false (occurs_eq_false_of_occIdx_none hn2)),
      if_neg (not_eq_true_of_eq_false (occurs_eq_false_of_occIdx_none hn3))]

/-- C4 witness: a markup file with no `</head>`, `</body>` or `</html>` tag
gets the script appended at document end; one with only `</body>` gets it
spliced before that tag's first occurrence. -/
theorem merge_html_injection_spec_witness :
    processEntryContent (strOf "page.html") (strOf "<p>no closing tags</p>") =
      strOf "<p>no closing tags</p>" ++ finishHandlerScript ∧
    processEntryContent (strOf "a.htm") (strOf "<body>x</body>") =
      (strOf "<body>x</body>").take 7 ++ finishHandlerScript ++ strOf "\n</body>" ++
        (strOf "<body>x</body>").drop 14 := by
  constructor
  · exact (merge_html_injection_spec (strOf "page.html") (strOf "<p>no closing tags</p>")
      (by decide)).2.2.2 (by decide) (by decide) (by decide)
  · exact ((merge_html_injection_spec (strOf "a.htm") (strOf "<body>x</body>")
      (by decide)).2.1 (by decide) 7 (by decide)).2

theorem mergeLoop_eq (total : Nat) : ∀ (c : Nat) (l : List Package),
    mergeLoop total c l =
      (((l.enumFrom c).map (fun ip => packageCopiedEntries (ip.1 + 1) ip.2)).flatten,
        (l.enumFrom c).map (fun ip =>
          ⟨strOf "Processing package: " ++ ip.2.title,
            15 + ((ip.1 : ℚ) / (total : ℚ)) * 70⟩)) := by
  intro c l
  induction l generalizing c with
  | nil => rfl
  | cons p rest ih =>
    rw [mergeLoop, ih (c + 1)]
    simp [List.enumFrom_cons]

theorem mergePackages_archive_eq (manifestId : Str) (packages : List Package) :
    (mergePackages manifestId packages).archive =
      (strOf "imsmanifest.xml", createMergedManifest manifestId packages) ::
        (createMenuFiles packages ++
          ((packages.enum.map (fun ip => packageCopiedEntries (ip.1 + 1) ip.2)).flatten)) := by
  rw [mergePackages]
  simp [mergeLoop_eq, List.enum_eq_enumFrom]

theorem slash_sep_inj : ∀ {a : Str} {b x y : Str}, '/' ∉ a → '/' ∉ b →
    a ++ '/' :: x = b ++ '/' :: y → a = b ∧ x = y := by
  intro a
  induction a with
  | nil =>
    intro b x y _ hb h
    cases b with
    | nil => simpa using h
    | cons d b' =>
      simp only [List.nil_append, List.cons_append, List.cons.injEq] at h
      exact absurd (by rw [h.1]; exact List.mem_cons_self d b') hb
  | cons c a' ih =>
    intro b x y ha hb h
    cases b with
    | nil =>
      simp only [List.cons_append, List.nil_append, List.cons.injEq] at h
      exact absurd (by rw [← h.1]; exact List.mem_cons_self c a') ha
    | cons d b' =>
      simp only [List.cons_append, List.cons.injEq] at h
      rcases h with ⟨rfl, h2⟩
      have ha' : '/' ∉ a' := fun hm => ha (List.mem_cons_of_mem _ hm)
      have hb' : '/' ∉ b' := fun hm => hb (List.mem_cons_of_mem _ hm)
      rcases ih ha' hb' h2 with ⟨rfl, rfl⟩
      exact ⟨rfl, rfl⟩

theorem packagePathPfx_append (n : Nat) (u : Str) :
    packagePathPfx n ++ u = strOf "package_" ++ (natToStr n ++ '/' :: u) := by
  show ((strOf "package_" ++ natToStr n) ++ strOf "/") ++ u =
    strOf "package_" ++ (natToStr n ++ '/' :: u)
  simp [List.append_assoc, show strOf "/" = ['/'] from rfl]

theorem packagePathPfx_inj {n m : Nat} {s : Str}
    (h : (packagePathPfx n).isPrefixOf (packagePathPfx m ++ s) = true) : n = m := by
  rcases isPrefixOf_iff_exists.mp h with ⟨t, ht⟩
  rw [packagePathPfx_append, packagePathPfx_append] at ht
  have h2 := List.append_cancel_left ht
  rcases slash_sep_inj (natToStr_no_slash m) (natToStr_no_slash n) h2 with ⟨he, _⟩
  exact (natToStr_injective he).symm

theorem packagePathPfx_not_prefix_head (n : Nat) {c : Char} {r : Str} (hc : ¬ 'p' = c) :
    (packagePathPfx n).isPrefixOf (c :: r) = false := by
  show ('p' :: ((strOf "ackage_" ++ natToStr n) ++ strOf "/")).isPrefixOf (c :: r) = false
  exact isPrefixOf_cons_head_ne hc

theorem pfx_not_imsmanifest (n : Nat) :
    (packagePathPfx n).isPrefixOf (strOf "imsmanifest.xml") = false :=
  packagePathPfx_not_prefix_head n (by decide)

theorem pfx_not_menu_index (n : Nat) :
    (packagePathPfx n).isPrefixOf (strOf "menu/index.html") = false :=
  packagePathPfx_not_prefix_head n (by decide)

theorem pfx_not_menu_js (n : Nat) :
    (packagePathPfx n).isPrefixOf (strOf "menu/menu.js") = false :=
  packagePathPfx_not_prefix_head n (by decide)

theorem pfx_not_menu_css (n : Nat) :
    (packagePathPfx n).isPrefixOf (strOf "menu/style.css") = false :=
  packagePathPfx_not_prefix_head n (by decide)

theorem pfxed_ne_of_not_prefix {n : Nat} {f name : Str}
    (h : (packagePathPfx n).isPrefixOf name = false) : ¬ packagePathPfx n ++ f = name := by
  intro he
  rw [← he] at h
  rw [isPrefixOf_iff_exists.mpr ⟨f, rfl⟩] at h
  cases h

theorem copyEntry_fst (n : Nat) (e : ZipEntry) :
    (copyEntry n e).1 = packagePathPfx n ++ e.filename := rfl

theorem mem_packageCopiedEntries_fst {n : Nat} {pkg : Package} {e : Str × Str}
    (he : e ∈ packageCopiedEntries n pkg) : ∃ f, e.1 = packagePathPfx n ++ f := by
  rcases List.mem_map.mp he with ⟨z, _, rfl⟩
  exact ⟨z.filename, rfl⟩

theorem mergeLoopFst_names (total : Nat) : ∀ (c : Nat) (l : List Package),
    ∀ e ∈ (mergeLoop total c l).1, ∃ k f, c < k ∧ k ≤ c + l.length ∧
      e.1 = packagePathPfx k ++ f := by
  intro c l
  induction l generalizing c with
  | nil => intro e he; cases he
  | cons p rest ih =>
    intro e he
    rw [mergeLoop] at he
    rcases List.mem_append.mp he with h | h
    · rcases mem_packageCopiedEntries_fst h with ⟨f, hf⟩
      exact ⟨c + 1, f, by omega, by simp, hf⟩
    · rcases ih (c + 1) e h with ⟨k, f, hk1, hk2, hf⟩
      exact ⟨k, f, by omega, by simp only [List.length_cons]; omega, hf⟩

theorem mergeLoopFst_filter (total n : Nat) : ∀ (c : Nat) (l : List Package),
    (mergeLoop total c l).1.filter (fun e => (packagePathPfx n).isPrefixOf e.1) =
      if c < n then
        (match l.get? (n - c - 1) with
          | some pkg => packageCopiedEntries n pkg
          | none => [])
      else [] := by
  intro c l
  induction l generalizing c with
  | nil =>
    show ([] : List (Str × Str)).filter _ = _
    rw [List.filter_nil]
    split
    · rfl
    · rfl
  | cons p rest ih =>
    rw [mergeLoop]
    show (packageCopiedEntries (c + 1) p ++ (mergeLoop total (c + 1) rest).1).filter _ = _
    rw [List.filter_append, ih (c + 1)]
    by_cases hn : n = c + 1
    · subst hn
      have h1 : (packageCopiedEntries (c + 1) p).filter
          (fun e => (packagePathPfx (c + 1)).isPrefixOf e.1) =
          packageCopiedEntries (c + 1) p := by
        rw [List.filter_eq_self]
        intro e he
        rcases mem_packageCopiedEntries_fst he with ⟨f, hf⟩
        rw [hf]
        exact isPrefixOf_iff_exists.mpr ⟨f, rfl⟩
      rw [h1, if_neg (by omega), if_pos (by omega), List.append_nil]
      simp
    · have h1 : (packageCopiedEntries (c + 1) p).filter
          (fun e => (packagePathPfx n).isPrefixOf e.1) = [] := by
        rw [List.filter_eq_nil_iff]
        intro e he
        rcases mem_packageCopiedEntries_fst he with ⟨f, hf⟩
        intro hp
        rw [hf] at hp
        exact hn (packagePathPfx_inj hp)
      rw [h1, List.nil_append]
      by_cases hc : c < n
      · have hc2 : c + 1 < n := by omega
        rw [if_pos hc2, if_pos hc]
        have : n - c - 1 = (n - c - 2) + 1 := by omega
        rw [this, List.get?_cons_succ]
        have : n - (c + 1) - 1 = n - c - 2 := by omega
        rw [this]
      · rw [if_neg (by omega), if_neg hc]

theorem countName_cons (e : Str × Str) (l : List (Str × Str)) (name : Str) :
    countName (e :: l) name = (if e.1 == name then 1 else 0) + countName l name := by
  rw [countName, List.filter_cons]
  split
  · simp [countName, Nat.add_comm]
  · simp [countName]

theorem flatten_part_eq_mergeLoopFst (packages : List Package) :
    (packages.enum.map (fun ip => packageCopiedEntries (ip.1 + 1) ip.2)).flatten =
      (mergeLoop packages.length 0 packages).1 := by
  rw [mergeLoop_eq, List.enum_eq_enumFrom]

theorem flat_names (packages : List Package) :
    ∀ e ∈ (packages.enum.map (fun ip => packageCopiedEntries (ip.1 + 1) ip.2)).flatten,
      ∃ k f, 1 ≤ k ∧ k ≤ packages.length ∧ e.1 = packagePathPfx k ++ f := by
  intro e he
  rw [flatten_part_eq_mergeLoopFst] at he
  rcases mergeLoopFst_names packages.length 0 packages e he with ⟨k, f, h1, h2, h3⟩
  exact ⟨k, f, h1, by omega, h3⟩

theorem countName_flat_zero (packages : List Package) (name : Str)
    (hname : ∀ k, (packagePathPfx k).isPrefixOf name = false) :
    countName ((packages.enum.map
      (fun ip => packageCopiedEntries (ip.1 + 1) ip.2)).flatten) name = 0 := by
  rw [countName]
  have : ((packages.enum.map (fun ip => packageCopiedEntries (ip.1 + 1) ip.2)).flatten).filter
      (fun e => e.1 == name) = [] := by
    rw [List.filter_eq_nil_iff]
    intro e he
    rcases flat_names packages e he with ⟨k, f, _, _, hf⟩
    intro hq
    rw [beq_iff_eq] at hq
    exact pfxed_ne_of_not_prefix (hname k) (hf.symm.trans hq)
  rw [this]
  rfl

theorem entriesUnder_merge (manifestId : Str) (packages : List Package) (n : Nat)
    (hn : 1 ≤ n) :
    entriesUnder (mergePackages manifestId packages).archive n =
      (match packages.get? (n - 1) with
        | some pkg => packageCopiedEntries n pkg
        | none => []) := by
  rw [entriesUnder, mergePackages_archive_eq, createMenuFiles]
  simp only [List.cons_append, List.nil_append]
  rw [List.filter_cons, if_neg (not_eq_true_of_eq_false (pfx_not_imsmanifest n)),
    List.filter_cons, if_neg (not_eq_true_of_eq_false (pfx_not_menu_index n)),
    List.filter_cons, if_neg (not_eq_true_of_eq_false (pfx_not_menu_js n)),
    List.filter_cons, if_neg (not_eq_true_of_eq_false (pfx_not_menu_css n)),
    flatten_part_eq_mergeLoopFst, mergeLoopFst_filter, if_pos (by omega)]
  have : n - 0 - 1 = n - 1 := by omega
  rw [this]

/-- C1: for every ordered input list, the empty list included, the merged
archive holds exactly one root `imsmanifest.xml` and exactly one of each of
the three menu assets `menu/index.html`, `menu/menu.js`, `menu/style.css`;
for each 0-based input position `i` the entries under `package_<i+1>/` are
exactly that package's copied files; and every archive entry is one of the
four fixed entries or lies under `package_<k>/` for an input position
`k - 1`. -/
theorem mergePackages_archive_structure (manifestId : Str) (packages : List Package) :
    countName (mergePackages manifestId packages).archive (strOf "imsmanifest.xml") = 1 ∧
    countName (mergePackages manifestId packages).archive (strOf "menu/index.html") = 1 ∧
    countName (mergePackages manifestId packages).archive (strOf "menu/menu.js") = 1 ∧
    countName (mergePackages manifestId packages).archive (strOf "menu/style.css") = 1 ∧
    (∀ i pkg, packages.get? i = some pkg →
      entriesUnder (mergePackages manifestId packages).archive (i + 1) =
        packageCopiedEntries (i + 1) pkg) ∧
    (∀ e ∈ (mergePackages manifestId packages).archive,
      e.1 = strOf "imsmanifest.xml" ∨ e.1 = strOf "menu/index.html" ∨
      e.1 = strOf "menu/menu.js" ∨ e.1 = strOf "menu/style.css" ∨
      ∃ k, 1 ≤ k ∧ k ≤ packages.length ∧ ∃ f, e.1 = packagePathPfx k ++ f) := by
  refine ⟨?_, ?_, ?_, ?_, ?_, ?_⟩
  · rw [mergePackages_archive_eq, createMenuFiles]
    simp only [List.cons_append, List.nil_append]
    rw [countName_cons, countName_cons, countName_cons, countName_cons,
      countName_flat_zero packages _ pfx_not_imsmanifest]
    norm_num [show ((strOf "imsmanifest.xml") == strOf "imsmanifest.xml") = true from by decide,
      show ((strOf "menu/index.html") == strOf "imsmanifest.xml") = false from by decide,
      show ((strOf "menu/menu.js") == strOf "imsmanifest.xml") = false from by decide,
      show ((strOf "menu/style.css") == strOf "imsmanifest.xml") = false from by decide]
  · rw [mergePackages_archive_eq, createMenuFiles]
    simp only [List.cons_append, List.nil_append]
    rw [countName_cons, countName_cons, countName_cons, countName_cons,
      countName_flat_zero packages _ pfx_not_menu_index]
    norm_num [show ((strOf "imsmanifest.xml") == strOf "menu/index.html") = false from by decide,
      show ((strOf "menu/index.html") == strOf "menu/index.html") = true from by decide,
      show ((strOf "menu/menu.js") == strOf "menu/index.html") = false from by decide,
      show ((strOf "menu/style.css") == strOf "menu/index.html") = false from by decide]
  · rw [mergePackages_archive_eq, createMenuFiles]
    simp only [List.cons_append, List.nil_append]
    rw [countName_cons, countName_cons, countName_cons, countName_cons,
      countName_flat_zero packages _ pfx_not_menu_js]
    norm_num [show ((strOf "imsmanifest.xml") == strOf "menu/menu.js") = false from by decide,
      show ((strOf "menu/index.html") == strOf "menu/menu.js") = false from by decide,
      show ((strOf "menu/menu.js") == strOf "menu/menu.js") = true from by decide,
      show ((strOf "menu/style.css") == strOf "menu/menu.js") = false from by decide]
  · rw [mergePackages_archive_eq, createMenuFiles]
    simp only [List.cons_append, List.nil_append]
    rw [countName_cons, countName_cons, countName_cons, countName_cons,
      countName_flat_zero packages _ pfx_not_menu_css]
    norm_num [show ((strOf "imsmanifest.xml") == strOf "menu/style.css") = false from by decide,
      show ((strOf "menu/index.html") == strOf "menu/style.css") = false from by decide,
      show ((strOf "menu/menu.js") == strOf "menu/style.css") = false from by decide,
      show ((strOf "menu/style.css") == strOf "menu/style.css") = true from by decide]
  · intro i pkg hpkg
    rw [entriesUnder_merge manifestId packages (i + 1) (by omega)]
    simp only [Nat.add_sub_cancel]
    rw [hpkg]
  · intro e he
    rw [mergePackages_archive_eq, createMenuFiles] at he
    simp only [List.cons_append, List.nil_append, List.mem_cons] at he
    rcases he with he | he | he | he | he
    · exact Or.inl (by rw [he])
    · exact Or.inr (Or.inl (by rw [he]))
    · exact Or.inr (Or.inr (Or.inl (by rw [he])))
    · exact Or.inr (Or.inr (Or.inr (Or.inl (by rw [he]))))
    · rcases flat_names packages e he with ⟨k, f, h1, h2, h3⟩
      exact Or.inr (Or.inr (Or.inr (Or.inr ⟨k, h1, h2, f, h3⟩)))

/-- C1 witness: a one-package merge has exactly one root manifest, one of
each menu asset, and `package_1/` holds exactly the demo package's copied
files. -/
theorem mergePackages_archive_structure_witness :
    countName (mergePackages (strOf "m") [demoPackage]).archive (strOf "imsmanifest.xml") = 1 ∧
    countName (mergePackages (strOf "m") [demoPackage]).archive (strOf "menu/index.html") = 1 ∧
    entriesUnder (mergePackages (strOf "m") [demoPackage]).archive 1 =
      packageCopiedEntries 1 demoPackage := by
  have h := mergePackages_archive_structure (strOf "m") [demoPackage]
  exact ⟨h.1, h.2.1, h.2.2.2.2.1 0 demoPackage rfl⟩

theorem mem_packageCopiedEntries_iff {n : Nat} {pkg : Package} {e : ZipEntry}
    (hnd : (pkg.entries.map ZipEntry.filename).Nodup) (he : e ∈ pkg.entries) :
    (∃ c, (packagePathPfx n ++ e.filename, c) ∈ packageCopiedEntries n pkg) ↔
      (¬ e.filename = strOf "imsmanifest.xml" ∧ e.dir = false) := by
  constructor
  · rintro ⟨c, hc⟩
    rcases List.mem_map.mp hc with ⟨z, hz, hze⟩
    have hzmem := List.mem_of_mem_filter hz
    have hzpred := List.of_mem_filter hz
    have hname : z.filename = e.filename := by
      have := congrArg Prod.fst hze
      rw [copyEntry_fst] at this
      exact List.append_cancel_left this
    have hz_eq_e : z = e :=
      List.inj_on_of_nodup_map hnd hzmem he hname
    rw [← hz_eq_e]
    simpa [Bool.and_eq_true, Bool.not_eq_true', beq_eq_false_iff_ne] using hzpred
  · rintro ⟨h1, h2⟩
    refine ⟨processEntryContent e.filename e.content, ?_⟩
    have : (packagePathPfx n ++ e.filename, processEntryContent e.filename e.content) =
        copyEntry n e := rfl
    rw [this]
    exact List.mem_map_of_mem _ (List.mem_filter.mpr ⟨he, by
      simp [h2, beq_eq_false_iff_ne, h1]⟩)

/-- C10: in the merge copy step only the root-level `imsmanifest.xml` entry
and directory entries are excluded; every other entry of a package —
a nested `sub/imsmanifest.xml` included — is copied (with the markup
transform applied) to `package_<n>/<original relative path>`, and lands in
the merged archive when the package sits at input position `n - 1`. -/
theorem merge_copy_filter_spec (n : Nat) (pkg : Package)
    (hnd : (pkg.entries.map ZipEntry.filename).Nodup) (e : ZipEntry)
    (he : e ∈ pkg.entries) :
    ((∃ c, (packagePathPfx n ++ e.filename, c) ∈ packageCopiedEntries n pkg) ↔
      (¬ e.filename = strOf "imsmanifest.xml" ∧ e.dir = false)) ∧
    (∀ manifestId packages, packages.get? (n - 1) = some pkg → 1 ≤ n →
      ¬ e.filename = strOf "imsmanifest.xml" → e.dir = false →
      (packagePathPfx n ++ e.filename, processEntryContent e.filename e.content) ∈
        (mergePackages manifestId packages).archive) := by
  refine ⟨mem_packageCopiedEntries_iff hnd he, ?_⟩
  intro manifestId packages hget hn h1 h2
  rw [mergePackages_archive_eq]
  refine List.mem_cons_of_mem _ (List.mem_append_right _ ?_)
  refine List.mem_flatten.mpr ⟨packageCopiedEntries n pkg, ?_, ?_⟩
  · refine List.mem_map.mpr ⟨(n - 1, pkg), ?_, ?_⟩
    · rw [List.mk_mem_enum_iff_getElem?, ← List.get?_eq_getElem?]
      exact hget
    · simp only []
      congr 1
      omega
  · have : (packagePathPfx n ++ e.filename, processEntryContent e.filename e.content) =
        copyEntry n e := rfl
    rw [this]
    exact List.mem_map_of_mem _ (List.mem_filter.mpr ⟨he, by
      simp [h2, beq_eq_false_iff_ne, h1]⟩)

/-- C10 witness: the demo package's nested `sub/imsmanifest.xml` is copied
into `package_1/sub/imsmanifest.xml` of the merged archive. -/
theorem merge_copy_filter_spec_witness :
    (packagePathPfx 1 ++ strOf "sub/imsmanifest.xml",
      processEntryContent (strOf "sub/imsmanifest.xml") (strOf "<n/>")) ∈
      (mergePackages (strOf "w") [demoPackage]).archive :=
  (merge_copy_filter_spec 1 demoPackage (by decide)
    ⟨strOf "sub/imsmanifest.xml", false, strOf "<n/>"⟩ (by decide)).2
    (strOf "w") [demoPackage] rfl (by decide) (by decide) rfl

/-- C5: for every input list of `n` packages, `mergePackages` reports, in
order: 5 (creating merged manifest), 10 (creating course menu), then for
each 0-based package index `i` (i.e. `k = i + 1` from 1 to `n`) a
per-package event with progress `15 + (i / n) * 70`, then 90 (final
packaging) and 100 (complete). -/
theorem mergePackages_progress_events (manifestId : Str) (packages : List Package) :
    (mergePackages manifestId packages).events =
      ⟨strOf "Creating merged manifest", 5⟩ :: ⟨strOf "Creating course menu", 10⟩ ::
        (packages.enum.map (fun ip =>
          ⟨strOf "Processing package: " ++ ip.2.title,
            15 + ((ip.1 : ℚ) / (packages.length : ℚ)) * 70⟩) ++
          [⟨strOf "Generating final package", 90⟩, ⟨strOf "Complete", 100⟩]) := by
  rw [mergePackages]
  simp [mergeLoop_eq, List.enum_eq_enumFrom]

/-- C9 counterexample: the upload handler computes the display title and
stores it into the record's `title` field — for a parsed package titled
`"Untitled"` uploaded as `my-course.zip`, the stored title afterwards is
`"My Course"`, not the original stored title. So an operation that computes
a display title does modify the stored title field. -/
theorem upload_title_assignment_mutates_stored_title :
    (uploadPackageData
      ⟨strOf "Untitled", [], strOf "1.2", none, [], [], []⟩
      (strOf "my-course.zip")).title = strOf "My Course" ∧
    ¬ (uploadPackageData
      ⟨strOf "Untitled", [], strOf "1.2", none, [], [], []⟩
      (strOf "my-course.zip")).title = strOf "Untitled" := by
  constructor
  · decide
  · decide

/-- C9 amended: `getDisplayTitle` itself is a pure function of the record:
it returns the stored title unchanged when that title is non-empty and not
a sentinel (`"Untitled"`/`"Untitled SCORM Package"`); when the title is a
sentinel or empty and a non-empty filename is present it returns the
friendly name derived from that filename; with no filename it returns the
stored title when non-empty, else `"Untitled Course"`. (The upload handler,
however, then overwrites the stored title with this computed display
title — see the counterexample.) -/
theorem getDisplayTitle_spec (pkg : Package) :
    (pkg.title ≠ [] → pkg.title ≠ strOf "Untitled" →
      pkg.title ≠ strOf "Untitled SCORM Package" →
      getDisplayTitle pkg = pkg.title) ∧
    ((pkg.title = [] ∨ pkg.title = strOf "Untitled" ∨
        pkg.title = strOf "Untitled SCORM Package") →
      ∀ f, pkg.filename = some f → f ≠ [] →
        getDisplayTitle pkg = generateFriendlyNameFromFilename f) ∧
    (pkg.filename = none →
      getDisplayTitle pkg =
        (if pkg.title = [] then strOf "Untitled Course" else pkg.title)) := by
  refine ⟨?_, ?_, ?_⟩
  · intro h1 h2 h3
    rw [getDisplayTitle, if_pos ⟨h1, h2, h3⟩]
  · intro hsent f hf hfne
    have hnc : ¬ (pkg.title ≠ [] ∧ pkg.title ≠ strOf "Untitled" ∧
        pkg.title ≠ strOf "Untitled SCORM Package") := by
      rcases hsent with h | h | h <;> simp [h]
    have htr : truthyOpt pkg.filename = true := by
      rw [hf, truthyOpt]
      simpa [List.isEmpty_iff] using hfne
    rw [getDisplayTitle, if_neg hnc, if_pos htr, hf]
    rfl
  · intro hnone
    rw [getDisplayTitle, hnone]
    have h2 : truthyOpt (none : Option Str) = false := rfl
    rw [h2]
    split_ifs with hA hB hC hD <;> first | rfl | tauto

/-- C9 witness for the amended claim: a non-sentinel title is returned
unchanged; a sentinel title with a filename yields the friendly name. -/
theorem getDisplayTitle_spec_witness :
    getDisplayTitle
      ⟨strOf "My Great Course", [], [], some (strOf "bad-filename.zip"), [], [], []⟩ =
      strOf "My Great Course" ∧
    getDisplayTitle
      ⟨strOf "Untitled", [], [], some (strOf "advanced-javascript-course.zip"), [], [], []⟩ =
      generateFriendlyNameFromFilename (strOf "advanced-javascript-course.zip") := by
  constructor
  · exact (getDisplayTitle_spec _).1 (by decide) (by decide) (by decide)
  · exact (getDisplayTitle_spec _).2.1 (Or.inr (Or.inl rfl)) _ rfl (by decide)

/-- C3 counterexample: the background description task's per-package step
invokes the external generator and returns its text even when the package's
existing description is far longer than the 10-character threshold — the
existing description is not returned and the generator is not skipped. -/
theorem task_description_invokes_generator_despite_existing :
    (taskProcessPackage true true (strOf "Interactive SCORM learning module")
      (fun _ => some (strOf "Generated text from the external model."))
      ⟨strOf "Some Course", strOf "An existing authored description of this course.",
        strOf "1.2", some (strOf "x.zip"), [], [], []⟩).2 = true ∧
    ¬ (taskProcessPackage true true (strOf "Interactive SCORM learning module")
      (fun _ => some (strOf "Generated text from the external model."))
      ⟨strOf "Some Course", strOf "An existing authored description of this course.",
        strOf "1.2", some (strOf "x.zip"), [], [], []⟩).1 =
      strOf "An existing authored description of this course." := by
  constructor
  · decide
  · decide

/-- C3 amended: the existing-description short-circuit lives in
`ScormProcessor.generateDescription` (the upload path), not in the
background task. For every package whose trimmed existing description is
longer than 10 characters, `generateDescription` returns that trimmed
description and does not invoke the external generator; the background
task's per-package step, by contrast, hands the package straight to
`OpenAIService.generateDescription`, which invokes the external generator
whenever the service is enabled, regardless of the existing description. -/
theorem existing_description_wins_in_upload_path (enabled fallbackEnabled : Bool)
    (defaultDescription : Str) (extGen : CourseData → Option Str) (pkg : Package)
    (h : 10 < (jsTrim pkg.description).length) :
    generateDescription enabled fallbackEnabled defaultDescription extGen pkg =
      (jsTrim pkg.description, false) ∧
    (enabled = true →
      (taskProcessPackage enabled fallbackEnabled defaultDescription extGen pkg).2 = true) := by
  constructor
  · have hne : pkg.description ≠ [] := by
      intro he
      rw [he] at h
      simp [jsTrim] at h
    rw [generateDescription, if_pos ⟨hne, h⟩]
  · intro he
    subst he
    rw [taskProcessPackage, openaiGenerateDescription, if_neg (by decide)]
    cases hx : extGen ⟨pkg.title, pkg.filename, pkg.contentSample, pkg.description⟩ with
    | none => rfl
    | some raw =>
      dsimp only
      split <;> rfl

/-- C3 amended-claim witness: at a concrete package with a long existing
description, the upload path returns it trimmed without invoking the
generator, while the background step does invoke the generator. -/
theorem existing_description_wins_in_upload_path_witness :
    generateDescription true true (strOf "Interactive SCORM learning module")
      (fun _ => some (strOf "Generated text from the external model."))
      ⟨strOf "T", strOf "A sufficiently long existing description.",
        strOf "1.2", none, [], [], []⟩ =
      (jsTrim (strOf "A sufficiently long existing description."), false) ∧
    (taskProcessPackage true true (strOf "Interactive SCORM learning module")
      (fun _ => some (strOf "Generated text from the external model."))
      ⟨strOf "T", strOf "A sufficiently long existing description.",
        strOf "1.2", none, [], [], []⟩).2 = true := by
  have h := existing_description_wins_in_upload_path true true
    (strOf "Interactive SCORM learning module")
    (fun _ => some (strOf "Generated text from the external model."))
    ⟨strOf "T", strOf "A sufficiently long existing description.",
      strOf "1.2", none, [], [], []⟩ (by decide)
  exact ⟨h.1, h.2 rfl⟩

theorem find?_set_list (sid : Str) (t' : DescTask) : ∀ (l : List (Str × DescTask)),
    ((l.find? (fun p => p.1 == sid)).map (fun p => p.2)).isSome = true →
    (((l.map (fun p => if p.1 == sid then (p.1, t') else p)).find?
      (fun p => p.1 == sid)).map (fun p => p.2)) = some t' := by
  intro l
  induction l with
  | nil => intro h; cases h
  | cons p l ih =>
    intro h
    by_cases hp : (p.1 == sid) = true
    · simp only [List.map_cons, List.find?_cons, hp, if_true]
      rfl
    · have hp' : (p.1 == sid) = false := bool_eq_false_of_not hp
      simp only [List.find?_cons, hp'] at h
      rw [List.map_cons, if_neg hp]
      simp only [List.find?_cons, hp']
      exact ih h

theorem lookupTask_setTask (st : TaskManagerState) (sid : Str) (t' : DescTask)
    (h : (lookupTask st sid).isSome = true) :
    lookupTask (setTask st sid t') sid = some t' := by
  rw [lookupTask, setTask]
  exact find?_set_list sid t' st.activeTasks h

/-- C8: `cancelTask` returns `false` and leaves the state untouched when the
session has no task or its task is not running; on a running task it returns
`true`, after which `getTaskStatus` reports status `'cancelled'`, and a
second `cancelTask` on the same session returns `false` and leaves the state
unchanged. -/
theorem cancelTask_spec (st : TaskManagerState) (sessionId : Str) :
    (lookupTask st sessionId = none → cancelTask st sessionId = (false, st)) ∧
    (∀ t, lookupTask st sessionId = some t → t.status ≠ TaskStatus.running →
      cancelTask st sessionId = (false, st)) ∧
    (∀ t, lookupTask st sessionId = some t → t.status = TaskStatus.running →
      ∀ now : Nat,
        (cancelTask st sessionId).1 = true ∧
        (getTaskStatus (cancelTask st sessionId).2 sessionId now).status =
          strOf "cancelled" ∧
        cancelTask (cancelTask st sessionId).2 sessionId =
          (false, (cancelTask st sessionId).2)) := by
  refine ⟨?_, ?_, ?_⟩
  · intro hnone
    rw [cancelTask, hnone]
  · intro t ht hst
    simp only [cancelTask, ht]
    rw [if_neg hst]
  · intro t ht hst now
    have hissome : (lookupTask st sessionId).isSome = true := by rw [ht]; rfl
    have hcancel : cancelTask st sessionId =
        (true, setTask st sessionId
          { t with cancelled := true, status := TaskStatus.cancelled }) := by
      simp only [cancelTask, ht]
      rw [if_pos hst]
    have hlook : lookupTask (cancelTask st sessionId).2 sessionId =
        some { t with cancelled := true, status := TaskStatus.cancelled } := by
      rw [hcancel]
      exact lookupTask_setTask st sessionId _ hissome
    refine ⟨by rw [hcancel], ?_, ?_⟩
    · simp only [getTaskStatus, hlook]
      rfl
    · generalize (cancelTask st sessionId).2 = st2 at hlook ⊢
      simp only [cancelTask, hlook]
      rw [if_neg (by decide)]

/-- C8 witness: on a state holding one running task for session `s1`,
`cancelTask` returns `true`, the status afterwards reads `'cancelled'`, and
a second `cancelTask` returns `false` without changing the state; on the
empty state it returns `false`. -/
theorem cancelTask_spec_witness :
    (cancelTask ⟨[(strOf "s1",
        ⟨strOf "t1", TaskStatus.running, 0, 0, 2, false, none⟩)], []⟩ (strOf "s1")).1 =
      true ∧
    (getTaskStatus (cancelTask ⟨[(strOf "s1",
        ⟨strOf "t1", TaskStatus.running, 0, 0, 2, false, none⟩)], []⟩ (strOf "s1")).2
      (strOf "s1") 5).status = strOf "cancelled" ∧
    cancelTask (cancelTask ⟨[(strOf "s1",
        ⟨strOf "t1", TaskStatus.running, 0, 0, 2, false, none⟩)], []⟩ (strOf "s1")).2
      (strOf "s1") =
      (false, (cancelTask ⟨[(strOf "s1",
        ⟨strOf "t1", TaskStatus.running, 0, 0, 2, false, none⟩)], []⟩ (strOf "s1")).2) ∧
    cancelTask ⟨[], []⟩ (strOf "s1") = (false, ⟨[], []⟩) := by
  have h := cancelTask_spec ⟨[(strOf "s1",
    ⟨strOf "t1", TaskStatus.running, 0, 0, 2, false, none⟩)], []⟩ (strOf "s1")
  have h3 := h.2.2 ⟨strOf "t1", TaskStatus.running, 0, 0, 2, false, none⟩ (by decide) rfl 5
  have h0 := cancelTask_spec ⟨[], []⟩ (strOf "s1")
  exact ⟨h3.1, h3.2.1, h3.2.2, h0.1 rfl⟩

theorem createMergedManifest_sv_split (manifestId : Str) (packages : List Package) :
    createMergedManifest manifestId packages =
      (manifestT1 ++ manifestId ++ manifestT2a) ++ schemaVersionXml ++
        (manifestT2b ++ (strOf "org_" ++ manifestId) ++ manifestT3 ++
          (strOf "org_" ++ manifestId) ++ manifestT4 ++
          (menuItemXml ++
            (packages.enum.map (fun ip => manifestItemBlock (ip.1 + 1) ip.2)).flatten) ++
          manifestT5 ++
          (menuResourceXml ++
            (packages.enum.map (fun ip => manifestResourceBlock (ip.1 + 1) ip.2)).flatten) ++
          manifestT6) := by
  rw [createMergedManifest, manifestT2]
  simp [List.append_assoc]

theorem createMergedManifest_items_split (manifestId : Str) (packages : List Package) :
    createMergedManifest manifestId packages =
      (manifestT1 ++ manifestId ++ manifestT2 ++ (strOf "org_" ++ manifestId) ++
        manifestT3 ++ (strOf "org_" ++ manifestId) ++ manifestT4 ++ menuItemXml) ++
      (packages.enum.map (fun ip => manifestItemBlock (ip.1 + 1) ip.2)).flatten ++
      (manifestT5 ++ menuResourceXml ++
        (packages.enum.map (fun ip => manifestResourceBlock (ip.1 + 1) ip.2)).flatten ++
        manifestT6) := by
  rw [createMergedManifest]
  simp [List.append_assoc]

theorem createMergedManifest_resources_split (manifestId : Str) (packages : List Package) :
    createMergedManifest manifestId packages =
      (manifestT1 ++ manifestId ++ manifestT2 ++ (strOf "org_" ++ manifestId) ++
        manifestT3 ++ (strOf "org_" ++ manifestId) ++ manifestT4 ++ menuItemXml ++
        (packages.enum.map (fun ip => manifestItemBlock (ip.1 + 1) ip.2)).flatten ++
        manifestT5 ++ menuResourceXml) ++
      (packages.enum.map (fun ip => manifestResourceBlock (ip.1 + 1) ip.2)).flatten ++
      manifestT6 := by
  rw [createMergedManifest]
  simp [List.append_assoc]

theorem appearsInOrder_of_flatten : ∀ (l : List Str) (pre post : Str),
    appearsInOrder l (pre ++ l.flatten ++ post) := by
  intro l
  induction l with
  | nil => intro pre post; trivial
  | cons p rest ih =>
    intro pre post
    refine ⟨pre, rest.flatten ++ post, ?_, ?_⟩
    · simp [List.append_assoc]
    · have := ih [] post
      simpa using this

theorem appearsInOrder_append_left {l : List Str} : ∀ {s : Str} (v : Str),
    appearsInOrder l s → appearsInOrder l (v ++ s) := by
  cases l with
  | nil => intro s v _; trivial
  | cons p rest =>
    intro s v h
    rcases h with ⟨pre, r, hpre, htail⟩
    exact ⟨v ++ pre, r, by rw [hpre]; simp [List.append_assoc], htail⟩

theorem appearsInOrder_mono_split {α : Type} {f g : α → Str} :
    ∀ (l : List α), (∀ x ∈ l, ∃ u v, f x = u ++ g x ++ v) →
    ∀ {s : Str}, appearsInOrder (l.map f) s → appearsInOrder (l.map g) s := by
  intro l
  induction l with
  | nil => intro _ s _; trivial
  | cons x xs ih =>
    intro hsplit s h
    rcases h with ⟨pre, rest, hs, htail⟩
    rcases hsplit x (List.mem_cons_self x xs) with ⟨u, v, hx⟩
    refine ⟨pre ++ u, v ++ rest, ?_, ?_⟩
    · rw [hs, hx]; simp [List.append_assoc]
    · exact appearsInOrder_append_left v
        (ih (fun y hy => hsplit y (List.mem_cons_of_mem x hy)) htail)

theorem enum_map_snd {α β : Type} (l : List α) (h : α → β) :
    l.enum.map (fun ip => h ip.2) = l.map h := by
  have : (fun ip : Nat × α => h ip.2) = h ∘ Prod.snd := rfl
  rw [this, ← List.map_map, List.enum_map_snd]

theorem manifestItemBlock_title_split (n : Nat) (pkg : Package) :
    ∃ u v, manifestItemBlock n pkg =
      u ++ (strOf "<title>" ++ escapeXml (getDisplayTitle pkg) ++ strOf "</title>") ++ v := by
  refine ⟨strOf "\n        <item identifier=\"item_" ++ natToStr n ++
    strOf "\" identifierref=\"resource_pkg_" ++ natToStr n ++ strOf "\">\n          ",
    strOf "\n        </item>", ?_⟩
  rw [manifestItemBlock,
    show strOf "\">\n          <title>" = strOf "\">\n          " ++ strOf "<title>" from
      by decide,
    show strOf "</title>\n        </item>" = strOf "</title>" ++ strOf "\n        </item>" from
      by decide]
  simp [List.append_assoc]

theorem manifest_title_tags_in_order (manifestId : Str) (packages : List Package) :
    appearsInOrder (packages.map (fun p =>
      strOf "<title>" ++ escapeXml (getDisplayTitle p) ++ strOf "</title>"))
      (createMergedManifest manifestId packages) := by
  have hblocks : appearsInOrder
      (packages.enum.map (fun ip => manifestItemBlock (ip.1 + 1) ip.2))
      (createMergedManifest manifestId packages) := by
    rw [createMergedManifest_items_split manifestId packages]
    exact appearsInOrder_of_flatten _ _ _
  have h2 := appearsInOrder_mono_split (f := fun ip : Nat × Package => manifestItemBlock (ip.1 + 1) ip.2)
    (g := fun ip : Nat × Package =>
      strOf "<title>" ++ escapeXml (getDisplayTitle ip.2) ++ strOf "</title>")
    packages.enum (fun ip _ => manifestItemBlock_title_split (ip.1 + 1) ip.2) hblocks
  rw [enum_map_snd packages (fun p =>
    strOf "<title>" ++ escapeXml (getDisplayTitle p) ++ strOf "</title>")] at h2
  exact h2

/-- C2: in the merged manifest the per-package `<item>` blocks (with their
1-based identifiers `item_<n>`/`resource_pkg_<n>`) and the matching
`<resource>` blocks (with their `package_<n>/` paths) appear in exactly the
caller-supplied input order, and so do the packages' display titles; in
particular merging `[Zebra Course, Apple Course]` in that order produces a
manifest in which "Zebra Course" appears before "Apple Course" — the
orchestrator does not sort. -/
theorem manifest_order_follows_input_order (manifestId : Str) (packages : List Package) :
    appearsInOrder (packages.enum.map (fun ip => manifestItemBlock (ip.1 + 1) ip.2))
      (createMergedManifest manifestId packages) ∧
    appearsInOrder (packages.enum.map (fun ip => manifestResourceBlock (ip.1 + 1) ip.2))
      (createMergedManifest manifestId packages) ∧
    appearsInOrder (packages.map (fun p =>
      strOf "<title>" ++ escapeXml (getDisplayTitle p) ++ strOf "</title>"))
      (createMergedManifest manifestId packages) ∧
    appearsInOrder [strOf "Zebra Course", strOf "Apple Course"]
      (createMergedManifest manifestId [zebraPackage, applePackage]) := by
  refine ⟨?_, ?_, manifest_title_tags_in_order manifestId packages, ?_⟩
  · rw [createMergedManifest_items_split manifestId packages]
    exact appearsInOrder_of_flatten _ _ _
  · rw [createMergedManifest_resources_split manifestId packages]
    exact appearsInOrder_of_flatten _ _ _
  · have h := manifest_title_tags_in_order manifestId [zebraPackage, applePackage]
    have hz : (fun p => strOf "<title>" ++ escapeXml (getDisplayTitle p) ++ strOf "</title>")
        zebraPackage =
        strOf "<title>" ++ strOf "Zebra Course" ++ strOf "</title>" := by decide
    have ha : (fun p => strOf "<title>" ++ escapeXml (getDisplayTitle p) ++ strOf "</title>")
        applePackage =
        strOf "<title>" ++ strOf "Apple Course" ++ strOf "</title>" := by decide
    rcases h with ⟨p1, r1, h1, p2, r2, h2, -⟩
    rw [hz] at h1
    rw [ha] at h2
    refine ⟨p1 ++ strOf "<title>", strOf "</title>" ++ r1, ?_, ?_⟩
    · rw [h1]; simp [List.append_assoc]
    · refine ⟨strOf "</title>" ++ p2 ++ strOf "<title>", strOf "</title>" ++ r2, ?_, trivial⟩
      rw [h2]; simp [List.append_assoc]

theorem flatten_map_mem_split {α : Type} (f : α → Str) :
    ∀ (l : List α) (x : α), x ∈ l → ∃ a b, (l.map f).flatten = a ++ f x ++ b := by
  intro l
  induction l with
  | nil => intro x h; cases h
  | cons q qs ih =>
    intro x h
    rcases List.mem_cons.mp h with h | h
    · subst h
      exact ⟨[], (qs.map f).flatten, by simp⟩
    · rcases ih x h with ⟨a, b, hab⟩
      refine ⟨f q ++ a, b, ?_⟩
      rw [List.map_cons, List.flatten_cons, hab]
      simp [List.append_assoc]

theorem menuItemHtml_version_split (n : Nat) (pkg : Package) :
    ∃ u v, menuItemHtml n pkg = u ++ (strOf "SCORM " ++ pkg.version) ++ v := by
  refine ⟨strOf "\n            <div class=\"menu-item\" data-package=\"" ++ natToStr n ++
      strOf "\">\n                <h3>" ++ escapeXml (getDisplayTitle pkg) ++
      strOf "</h3>\n                <p class=\"package-description\">" ++
      escapeXml (jsOrDefault pkg.description (strOf "SCORM learning module")) ++
      strOf "</p>\n                <p class=\"package-info\">",
    strOf " \u2022 " ++ optFilenameText pkg.filename ++
      strOf "</p>\n                <button onclick=\"launchPackage(" ++ natToStr n ++
      strOf ")\">Launch Module</button>\n            </div>\n            ", ?_⟩
  rw [menuItemHtml,
    show strOf "</p>\n                <p class=\"package-info\">SCORM " =
      strOf "</p>\n                <p class=\"package-info\">" ++ strOf "SCORM " from
      by decide]
  simp [List.append_assoc]

theorem enumFrom_map_eraseVersion (f : Nat × Package → Str)
    (hf : ∀ i pkg, f (i, eraseVersion pkg) = f (i, pkg)) :
    ∀ (c : Nat) (l : List Package),
      ((l.map eraseVersion).enumFrom c).map f = (l.enumFrom c).map f := by
  intro c l
  induction l generalizing c with
  | nil => rfl
  | cons p rest ih =>
    rw [List.map_cons, List.enumFrom_cons, List.enumFrom_cons, List.map_cons, List.map_cons,
      hf c p, ih (c + 1)]

/-- C7: the merged manifest always declares exactly
`<schemaversion>2004 3rd Edition</schemaversion>`; it is entirely
independent of the input packages' version strings (blanking every version
leaves it unchanged); and the input version strings do surface in display
text — the menu page shows `SCORM <version>` for each package. -/
theorem merged_manifest_version_harmonization (manifestId : Str) (packages : List Package) :
    (∃ a b, createMergedManifest manifestId packages =
      a ++ strOf "<schemaversion>2004 3rd Edition</schemaversion>" ++ b) ∧
    createMergedManifest manifestId (packages.map eraseVersion) =
      createMergedManifest manifestId packages ∧
    (∀ pkg ∈ packages, ∃ a b,
      menuHtml packages = a ++ (strOf "SCORM " ++ pkg.version) ++ b) := by
  refine ⟨?_, ?_, ?_⟩
  · exact ⟨manifestT1 ++ manifestId ++ manifestT2a, _,
      createMergedManifest_sv_split manifestId packages⟩
  · rw [createMergedManifest, createMergedManifest, List.enum_eq_enumFrom,
      List.enum_eq_enumFrom,
      enumFrom_map_eraseVersion (fun ip => manifestItemBlock (ip.1 + 1) ip.2)
        (fun i pkg => rfl) 0 packages,
      enumFrom_map_eraseVersion (fun ip => manifestResourceBlock (ip.1 + 1) ip.2)
        (fun i pkg => rfl) 0 packages]
  · intro pkg hpkg
    have hmem : ∃ i, (i, pkg) ∈ packages.enum := by
      have : ∀ (l : List Package) (c : Nat), pkg ∈ l → ∃ i, (i, pkg) ∈ l.enumFrom c := by
        intro l
        induction l with
        | nil => intro c h; cases h
        | cons q qs ih =>
          intro c h
          rcases List.mem_cons.mp h with h | h
          · exact ⟨c, by rw [h, List.enumFrom_cons]; exact List.mem_cons_self _ _⟩
          · rcases ih (c + 1) h with ⟨i, hi⟩
            exact ⟨i, by rw [List.enumFrom_cons]; exact List.mem_cons_of_mem _ hi⟩
      rw [List.enum_eq_enumFrom]
      exact this packages 0 hpkg
    rcases hmem with ⟨i, hip⟩
    rcases flatten_map_mem_split (fun ip => menuItemHtml (ip.1 + 1) ip.2)
      packages.enum (i, pkg) hip with ⟨a, b, hab⟩
    rcases menuItemHtml_version_split (i + 1) pkg with ⟨u, v, huv⟩
    refine ⟨menuHtmlPre ++ a ++ u, v ++ b ++ menuHtmlPost, ?_⟩
    rw [menuHtml, hab, huv]
    simp [List.append_assoc]

/-- C7 witness: a one-package merge's manifest carries the fixed
schemaversion, and the menu page displays `SCORM 2004 3rd Edition`
for the Apple package, whose version that is. -/
theorem merged_manifest_version_harmonization_witness :
    (∃ a b, createMergedManifest (strOf "v") [applePackage] =
      a ++ strOf "<schemaversion>2004 3rd Edition</schemaversion>" ++ b) ∧
    (∃ a b, menuHtml [applePackage] =
      a ++ (strOf "SCORM " ++ applePackage.version) ++ b) := by
  have h := merged_manifest_version_harmonization (strOf "v") [applePackage]
  exact ⟨h.1, h.2.2 applePackage (List.mem_cons_self _ _)⟩
